import Mathlib

/-!
# go-surefire: conversion of surefire/JUnit reports into test results

A shallow embedding of the `surefire` package (`surefire-interface.go`,
`test-results-interface.go`, `test-results-conversion.go`,
`surefire-reader.go`) together with theorems about the classification of
test cases, the aggregation of counters, the labels and back-references of
suites, and the concurrent loader of report files.

Modelling conventions

* A Go slice that the code tests against `nil` is an `Option (List α)`:
  `none` is the nil slice, `some []` an empty non-nil slice.  A slice that is
  only ranged over or appended to is a `List α`.
* A Go pointer to a record that is only tested against `nil` and read is an
  `Option` of the record.
* Go `int` counters are `Nat`.  Every counter of the conversion is bounded by
  the number of `TestCase` values that are alive in memory at the same time,
  so the 64-bit range is never left and no wrap-around is modelled.
* `float64` values are only copied by the conversion; they are represented by
  their bit pattern.
* The back-reference `TestCase.Suite` is a pointer to the owning `testSuite`
  object.  One such object is allocated per iteration of the outer loop of
  `FromJUnitRepresentation`; its address is modelled by its position in
  `testResults.suites`, the list in which the object ends up.
-/

namespace Surefire

/-! ## Raw schema (`surefire-interface.go`) -/

/-- Go `float64`, represented by its IEEE-754 bit pattern. -/
structure float64 where
  bits : Nat
deriving DecidableEq, Repr

/-- Type `surefireSkipped`: present if the referencing test case was skipped. -/
structure surefireSkipped where
  Message : String
deriving DecidableEq, Repr

/-- Type `surefireProblem`: present if the referencing test case failed or errored. -/
structure surefireProblem where
  Message : String
  Data : String
deriving DecidableEq, Repr

/-- Type `surefireRerun`: errors, failures and flakes from re-runs. -/
structure surefireRerun where
  Message : String
  Stacktrace : String
  SystemOut : String
  SystemError : String
deriving DecidableEq, Repr

/-- Type `surefireTestcase`: the data of a single raw test case. -/
structure surefireTestcase where
  Name : String
  Classname : String
  Time : float64
  Skipped : Option surefireSkipped
  Failure : Option surefireProblem
  Error : Option surefireProblem
  ReRunErrors : Option (List surefireRerun)
  ReRunFailures : Option (List surefireRerun)
  FlakyError : Option (List surefireRerun)
  FlakyFailure : Option (List surefireRerun)
deriving DecidableEq, Repr

/-- Type `surefireTestsuite`: the data of a single raw test suite.  `Suite` is
the `xml.Name` of the root element (name space and local name). -/
structure surefireTestsuite where
  Suite : String × String
  Name : String
  Time : float64
  Tests : Int
  Errors : Int
  Skipped : Int
  Failures : Int
  Testcases : List surefireTestcase
  Filename : String
deriving DecidableEq, Repr

/-! ## Result model (`test-results-interface.go`) -/

/-- Type `Issue`: a failure or error. -/
structure Issue where
  Message : String
  Detail : String
deriving DecidableEq, Repr

/-- Type `RerunIssue`: a rerun failure or error. -/
structure RerunIssue where
  Message : String
  Stacktrace : String
  SystemOut : String
  SystemError : String
deriving DecidableEq, Repr

/-- Type `Skipped`: the message of a skipped test. -/
structure Skipped where
  Message : String
deriving DecidableEq, Repr

/-- Type `Status`: the status of a test case, a Go string type. -/
abbrev Status := String

def Success : Status := "success"

def Skip : Status := "skipped"

def Failure : Status := "failure"

def Error : Status := "error"

def Flaky : Status := "flaky"

/-- Type `TestCase`: a single test run.  `Suite` is the address of the owning
suite object. -/
structure TestCase where
  Name : String
  Suite : Nat
  Status : Status
  Time : float64
  Fullname : String
  Classname : String
  Issue : Option Issue
  RerunFailures : Option (List RerunIssue)
  AmountRerunFailures : Nat
  RerunErrors : Option (List RerunIssue)
  AmountRerunErrors : Nat
  FlakyFailures : Option (List RerunIssue)
  AmountFlakyFailures : Nat
  FlakyErrors : Option (List RerunIssue)
  AmountFlakyErrors : Nat
  Skipped : Option Skipped
deriving DecidableEq, Repr

/-- Type `testSuite`: the implementation of `TestSuite`. -/
structure testSuite where
  testcases : List TestCase
  name : String
  filename : String
  time : float64
  successes : Nat
  failures : Nat
  errors : Nat
  skipped : Nat
  labels : List String
deriving DecidableEq, Repr

/-- Type `testResults`: the implementation of `TestResults`.  The element at
position `p` of `suites` is the suite object with address `p`. -/
structure testResults where
  tests : Nat
  successes : Nat
  failures : Nat
  errors : Nat
  skipped : Nat
  flakes : Nat
  suites : List testSuite
deriving DecidableEq, Repr

/-- Type `Labeler`: `func(TestSuite) []string`.  The interface `TestSuite`
offers read access only, so a labeler is a function of the suite value. -/
abbrev Labeler := testSuite → List String

/-- Method `testResults.TestSuites`. -/
def testResults.TestSuites (r : testResults) : List testSuite := r.suites

/-- The loop of `filterTestCases`: `_cases` starts empty and every case that
satisfies the predicate is appended to it, in the order of the range. -/
def filterLoop (predicate : TestCase → Bool) (_cases : List TestCase) :
    List TestCase → List TestCase
  | [] => _cases
  | testCase :: rest =>
    if predicate testCase then filterLoop predicate (_cases ++ [testCase]) rest
    else filterLoop predicate _cases rest

/-- Method `testSuite.filterTestCases`, in state-passing form: the receiver as
it is after the call, and the returned slice.  The body reads `t.testcases`
and writes to the fresh slice `_cases` only. -/
def testSuite.filterTestCases (t : testSuite) (predicate : TestCase → Bool) :
    testSuite × List TestCase :=
  (t, filterLoop predicate [] t.testcases)

/-- Method `testSuite.NonSuccessfulTestCases`. -/
def testSuite.NonSuccessfulTestCases (t : testSuite) : testSuite × List TestCase :=
  t.filterTestCases (fun testCase => testCase.Issue.isSome)

/-- Method `testSuite.SuccessfulTestCases`. -/
def testSuite.SuccessfulTestCases (t : testSuite) : testSuite × List TestCase :=
  t.filterTestCases (fun testCase => testCase.Issue.isNone && testCase.Skipped.isNone)

/-- Method `testSuite.SkippedTestCases`. -/
def testSuite.SkippedTestCases (t : testSuite) : testSuite × List TestCase :=
  t.filterTestCases (fun testCase => testCase.Skipped.isSome)

/-- Method `testSuite.FlakyTestCases`. -/
def testSuite.FlakyTestCases (t : testSuite) : testSuite × List TestCase :=
  t.filterTestCases (fun testCase =>
    testCase.AmountFlakyErrors != 0 || testCase.AmountFlakyFailures != 0)

/-- Method `testSuite.TestCases`. -/
def testSuite.TestCases (r : testSuite) : List TestCase := r.testcases

/-- Method `testSuite.Success`. -/
def testSuite.Success (r : testSuite) : Nat := r.successes

/-- Method `testSuite.Failure`. -/
def testSuite.Failure (r : testSuite) : Nat := r.failures

/-- Method `testSuite.Error`. -/
def testSuite.Error (r : testSuite) : Nat := r.errors

/-- Method `testSuite.Skipped`. -/
def testSuite.Skipped (r : testSuite) : Nat := r.skipped

/-- Method `testSuite.Name`. -/
def testSuite.Name (r : testSuite) : String := r.name

/-- Method `testSuite.Time`. -/
def testSuite.Time (r : testSuite) : float64 := r.time

/-- Method `testSuite.Labels`. -/
def testSuite.Labels (r : testSuite) : List String := r.labels

/-- Method `testSuite.Filename`. -/
def testSuite.Filename (r : testSuite) : String := r.filename

/-- Method `testResults.Successes`. -/
def testResults.Successes (r : testResults) : Nat := r.successes

/-- Method `testResults.Failures`. -/
def testResults.Failures (r : testResults) : Nat := r.failures

/-- Method `testResults.Errors`. -/
def testResults.Errors (r : testResults) : Nat := r.errors

/-- Method `testResults.Skipped`. -/
def testResults.Skipped (r : testResults) : Nat := r.skipped

/-- Method `testResults.Tests`. -/
def testResults.Tests (r : testResults) : Nat := r.tests

/-- Method `testResults.Flakes`. -/
def testResults.Flakes (r : testResults) : Nat := r.flakes

/-- Method `testResults.append`, in state-passing form. -/
def testResults.append (r : testResults) (suite : testSuite) : testResults :=
  let r := { r with tests := r.tests + suite.TestCases.length }
  let r := { r with successes := r.successes + suite.Success }
  let r := { r with errors := r.errors + suite.Error }
  let r := { r with failures := r.failures + suite.Failure }
  let r := { r with skipped := r.skipped + suite.Skipped }
  let (suite, flaky) := suite.FlakyTestCases
  let r := { r with flakes := r.flakes + flaky.length }
  { r with suites := r.suites ++ [suite] }

/-! ## Conversion helpers (`test-results-conversion.go`) -/

/-- Function `optionalTestProblem`. -/
def optionalTestProblem (p : Option surefireProblem) : Option Issue :=
  match p with
  | none => none
  | some p => some { Message := p.Message, Detail := p.Data }

/-- Function `toReRunIssues`. -/
def toReRunIssues (runs : Option (List surefireRerun)) : Option (List RerunIssue) :=
  match runs with
  | none => none
  | some runs =>
    if runs.length = 0 then none
    else some (runs.map fun r =>
      { Message := r.Message,
        Stacktrace := r.Stacktrace,
        SystemOut := r.SystemOut,
        SystemError := r.SystemError })

/-- Function `amountOf`. -/
def amountOf (runs : Option (List surefireRerun)) : Nat :=
  match runs with
  | none => 0
  | some runs => runs.length

/-! ## The reader (`surefire-reader.go`) -/

/-- Type `JUnitReportsReader`; `labeler` is `none` when no labeler is set. -/
structure JUnitReportsReader where
  labeler : Option Labeler

/-- The part of the inner loop body of `FromJUnitRepresentation` before the
final `append`: the suite with the bucket of the case incremented, and the
test case that was built.  `suiteAddr` stands for `&testSuite`. -/
def caseBody (suiteAddr : Nat) (surefireSuite : surefireTestsuite) (testSuite : testSuite)
    (surefireTestCase : surefireTestcase) : Surefire.testSuite × TestCase :=
  let _failure := optionalTestProblem surefireTestCase.Failure
  let _error := optionalTestProblem surefireTestCase.Error
  let _skipped := surefireTestCase.Skipped
  let (testSuite, issue, skipped, status) :
      Surefire.testSuite × Option Issue × Option Skipped × Status :=
    match _skipped with
    | some s =>
      ({ testSuite with skipped := testSuite.skipped + 1 }, none,
        some { Message := s.Message }, Skip)
    | none =>
      match _failure with
      | some _ =>
        ({ testSuite with failures := testSuite.failures + 1 }, _failure, none, Failure)
      | none =>
        match _error with
        | some _ =>
          ({ testSuite with errors := testSuite.errors + 1 }, _error, none, Error)
        | none =>
          ({ testSuite with successes := testSuite.successes + 1 }, none, none, Success)
  let status :=
    if amountOf surefireTestCase.FlakyError + amountOf surefireTestCase.FlakyFailure > 0
    then Flaky else status
  let testCase : TestCase :=
    { Name := surefireTestCase.Name,
      Classname := surefireTestCase.Classname,
      Fullname := surefireTestCase.Classname ++ "." ++ surefireTestCase.Name,
      Suite := suiteAddr,
      Time := surefireSuite.Time,
      Issue := issue,
      Skipped := skipped,
      RerunErrors := toReRunIssues surefireTestCase.ReRunErrors,
      AmountRerunErrors := amountOf surefireTestCase.ReRunErrors,
      RerunFailures := toReRunIssues surefireTestCase.ReRunFailures,
      AmountRerunFailures := amountOf surefireTestCase.ReRunFailures,
      FlakyErrors := toReRunIssues surefireTestCase.FlakyError,
      AmountFlakyErrors := amountOf surefireTestCase.FlakyError,
      FlakyFailures := toReRunIssues surefireTestCase.FlakyFailure,
      AmountFlakyFailures := amountOf surefireTestCase.FlakyFailure,
      Status := status }
  (testSuite, testCase)

/-- One iteration of the inner loop of `FromJUnitRepresentation`: the body
followed by `testSuite.testcases = append(testSuite.testcases, testCase)`. -/
def caseStep (suiteAddr : Nat) (surefireSuite : surefireTestsuite) (testSuite : testSuite)
    (surefireTestCase : surefireTestcase) : Surefire.testSuite :=
  let (testSuite, testCase) := caseBody suiteAddr surefireSuite testSuite surefireTestCase
  { testSuite with testcases := testSuite.testcases ++ [testCase] }

/-- The body of the outer loop of `FromJUnitRepresentation` up to the call of
`append`: the suite object is created with zero counters, filled by the inner
loop and labelled when a labeler is set. -/
def buildSuite (b : JUnitReportsReader) (suiteAddr : Nat) (surefireSuite : surefireTestsuite) :
    testSuite :=
  let testSuite : testSuite :=
    { name := surefireSuite.Name,
      filename := surefireSuite.Filename,
      time := surefireSuite.Time,
      testcases := [],
      successes := 0,
      failures := 0,
      errors := 0,
      skipped := 0,
      labels := [] }
  let testSuite := surefireSuite.Testcases.foldl (caseStep suiteAddr surefireSuite) testSuite
  match b.labeler with
  | some labeler => { testSuite with labels := labeler testSuite }
  | none => testSuite

/-- One iteration of the outer loop of `FromJUnitRepresentation`.  The fresh
suite object gets the next free address. -/
def suiteStep (b : JUnitReportsReader) (testResults : testResults)
    (surefireSuite : surefireTestsuite) : Surefire.testResults :=
  testResults.append (buildSuite b testResults.suites.length surefireSuite)

/-- Method `JUnitReportsReader.FromJUnitRepresentation`. -/
def JUnitReportsReader.FromJUnitRepresentation (b : JUnitReportsReader)
    (surefireSuites : List surefireTestsuite) : testResults :=
  let testResults : testResults :=
    { tests := 0, successes := 0, failures := 0, errors := 0, skipped := 0, flakes := 0,
      suites := [] }
  surefireSuites.foldl (suiteStep b) testResults

/-- Type `JUnitReportsReaderBuilder`. -/
structure JUnitReportsReaderBuilder where
  JUnitReportsReader : JUnitReportsReader

/-- Function `NewJUnitReportsReaderBuilder`. -/
def NewJUnitReportsReaderBuilder : JUnitReportsReaderBuilder :=
  { JUnitReportsReader := { labeler := none } }

/-- Method `JUnitReportsReaderBuilder.WithLabeler`. -/
def JUnitReportsReaderBuilder.WithLabeler (b : JUnitReportsReaderBuilder) (labeler : Labeler) :
    JUnitReportsReaderBuilder :=
  { b with JUnitReportsReader := { b.JUnitReportsReader with labeler := some labeler } }

/-- Method `JUnitReportsReaderBuilder.Build`. -/
def JUnitReportsReaderBuilder.Build (b : JUnitReportsReaderBuilder) :
    Surefire.JUnitReportsReader :=
  b.JUnitReportsReader

/-! ## The concurrent loader (`surefire-reader.go`)

`parseSurefireReports` starts one goroutine per location and waits for all of
them.  The embedding is a step function on the state of the whole call: the
shared variables `testsuites` and `errors`, the two mutexes, the counter of
the wait group, and one program counter with the local variables per
goroutine.  A step is one access to shared state by one goroutine; a
schedule is the list of the goroutines that take the steps, so that every
interleaving of the goroutines is a schedule.  The calls of `os.Open`, of the
XML decoder and of `Close` are external; what they yield for a location is
given by a `FileSystem`.  The state starts after `wg.Add` and the `go`
statements, which touch no shared variable that a worker reads. -/

/-- A Go `error` value, represented by its message. -/
abbrev GoError := String

/-- The zero value `surefireTestsuite{}`. -/
def zeroTestsuite : surefireTestsuite :=
  { Suite := ("", ""), Name := "", Time := ⟨0⟩, Tests := 0, Errors := 0, Skipped := 0,
    Failures := 0, Testcases := [], Filename := "" }

/-- What `decoder.Decode(&testsuite)` yields on a reader: the value it leaves
in `testsuite` and the error it returns. -/
structure Decoding where
  testsuite : surefireTestsuite
  err : Option GoError
deriving DecidableEq, Repr

/-- What the external calls yield for one location: the error of `os.Open`,
the outcome of decoding the opened file, and the error of `Close`. -/
structure FileOutcome where
  openFileError : Option GoError
  decoding : Decoding
  closeFileError : Option GoError
deriving DecidableEq, Repr

/-- The outcome of the external calls for every location. -/
abbrev FileSystem := String → FileOutcome

/-- Function `readReport`, on the outcome of decoding its reader. -/
def readReport (reader : Decoding) : surefireTestsuite × Option GoError :=
  match reader.err with
  | some err => (zeroTestsuite, some ("error decoding XML: " ++ err))
  | none => (reader.testsuite, none)

/-- The program counter of a worker goroutine, with the values of its local
variables.  `pending` holds the non-nil ones of `openFileError`,
`readReportError` and `closeFileError` that the three conditional appends
have not reached yet; `tmp` is the value of the shared slice that an
`append` has loaded and not yet stored back. -/
inductive Pc where
  | start
  | errLock (pending : List GoError)
  | errLoad (pending : List GoError)
  | errStore (tmp : List GoError) (e : GoError) (pending : List GoError)
  | errDone
  | errUnlock
  | repLock (suite : surefireTestsuite)
  | repLoad (suite : surefireTestsuite)
  | repStore (tmp : List surefireTestsuite) (suite : surefireTestsuite)
  | repDone
  | repUnlock
  | finished
deriving DecidableEq, Repr

/-- A worker goroutine: its argument `file` and its program counter. -/
structure Worker where
  file : String
  pc : Pc
deriving DecidableEq, Repr

/-- The state of one call of `parseSurefireReports`.  A mutex is `true` while
it is locked; `returned` is `none` while the caller is blocked in
`wg.Wait()` and holds the returned pair afterwards. -/
structure Loader where
  testsuites : List surefireTestsuite
  errors : List GoError
  reportMutex : Bool
  errorMutex : Bool
  wg : Nat
  panicked : Bool
  workers : List Worker
  returned : Option (Option (List surefireTestsuite) × Option GoError)
deriving DecidableEq, Repr

/-- The worker at position `i`, which is `w`, moves to the program counter `pc`. -/
def Loader.goto (s : Loader) (i : Nat) (w : Worker) (pc : Pc) : Loader :=
  { s with workers := s.workers.set i { w with pc := pc } }

/-- One step of the worker at position `i`; `none` when the worker is blocked
at a locked mutex, has finished or does not exist.  `Done` on a zero counter
and `Unlock` of an unlocked mutex are run-time panics. -/
def stepWorker (fs : FileSystem) (s : Loader) (i : Nat) : Option Loader :=
  match s.workers[i]? with
  | none => none
  | some w =>
    match w.pc with
    | .start =>
      let openFileError := (fs w.file).openFileError
      let (suite, readReportError) := readReport (fs w.file).decoding
      let suite := { suite with Filename := w.file }
      let closeFileError := (fs w.file).closeFileError
      if openFileError.isSome || readReportError.isSome || closeFileError.isSome then
        some (s.goto i w
          (.errLock [openFileError, readReportError, closeFileError].reduceOption))
      else some (s.goto i w (.repLock suite))
    | .errLock pending =>
      if s.errorMutex then none
      else some ({ s with errorMutex := true }.goto i w (.errLoad pending))
    | .errLoad [] => some (s.goto i w .errDone)
    | .errLoad (e :: pending) => some (s.goto i w (.errStore s.errors e pending))
    | .errStore tmp e pending =>
      some ({ s with errors := tmp ++ [e] }.goto i w (.errLoad pending))
    | .errDone =>
      if s.wg = 0 then some { s with panicked := true }
      else some ({ s with wg := s.wg - 1 }.goto i w .errUnlock)
    | .errUnlock =>
      if s.errorMutex then some ({ s with errorMutex := false }.goto i w .finished)
      else some { s with panicked := true }
    | .repLock suite =>
      if s.reportMutex then none
      else some ({ s with reportMutex := true }.goto i w (.repLoad suite))
    | .repLoad suite =>
      if suite.Name ≠ "" then some (s.goto i w (.repStore s.testsuites suite))
      else some (s.goto i w .repDone)
    | .repStore tmp suite =>
      some ({ s with testsuites := tmp ++ [suite] }.goto i w .repDone)
    | .repDone =>
      if s.wg = 0 then some { s with panicked := true }
      else some ({ s with wg := s.wg - 1 }.goto i w .repUnlock)
    | .repUnlock =>
      if s.reportMutex then some ({ s with reportMutex := false }.goto i w .finished)
      else some { s with panicked := true }
    | .finished => none

/-- The error that `parseSurefireReports` returns for the collected errors. -/
def combinedError (errors : List GoError) : GoError :=
  "one or more error occured when reading test report files ["
    ++ " ".intercalate errors ++ "]"

/-- The step of the caller: `wg.Wait()` returns once the counter is zero, and
the function returns what the length of `errors` decides.  The log line is
not part of the state. -/
def stepMain (s : Loader) : Option Loader :=
  match s.returned with
  | some _ => none
  | none =>
    if s.wg ≠ 0 then none
    else if s.errors.length > 0 then
      some { s with returned := some (none, some (combinedError s.errors)) }
    else some { s with returned := some (some s.testsuites, none) }

/-- Who takes the next step: the worker at a position, or the caller. -/
inductive Action where
  | worker (i : Nat)
  | caller
deriving DecidableEq, Repr

/-- One step of the call; nothing runs after a panic. -/
def step (fs : FileSystem) (s : Loader) (a : Action) : Option Loader :=
  if s.panicked then none
  else
    match a with
    | .worker i => stepWorker fs s i
    | .caller => stepMain s

/-- The state after the steps of a schedule; `none` when one of them cannot be
taken, so that the schedule is no execution. -/
def run (fs : FileSystem) (s : Loader) : List Action → Option Loader
  | [] => some s
  | a :: rest => (step fs s a).bind fun s2 => run fs s2 rest

/-- The state of `parseSurefireReports` when the caller reaches `wg.Wait()`. -/
def initLoader (surefireReportFiles : List String) : Loader :=
  { testsuites := [],
    errors := [],
    reportMutex := false,
    errorMutex := false,
    wg := surefireReportFiles.length,
    panicked := false,
    workers := surefireReportFiles.map fun file => { file := file, pc := .start },
    returned := none }

/-- Function `parseSurefireReports` under a schedule: the returned pair, or
`none` when the call has not returned under that schedule. -/
def parseSurefireReports (fs : FileSystem) (schedule : List Action)
    (surefireReportFiles : List String) :
    Option (Option (List surefireTestsuite) × Option GoError) :=
  (run fs (initLoader surefireReportFiles) schedule).bind fun s => s.returned

/-- Method `JUnitReportsReader.FromReportFiles` under a schedule of the loader. -/
def JUnitReportsReader.FromReportFiles (b : JUnitReportsReader) (fs : FileSystem)
    (schedule : List Action) (surefireReportFiles : List String) :
    Option (Option testResults × Option GoError) :=
  (parseSurefireReports fs schedule surefireReportFiles).map fun (surefireSuites, err) =>
    match err with
    | some err => (none, some err)
    | none => (some (b.FromJUnitRepresentation (surefireSuites.getD [])), none)


/-! ## Auxiliary notions used to state the properties -/

/-- The raw case at position `j` of the raw suite at position `i`. -/
def rawCase? (surefireSuites : List surefireTestsuite) (i j : Nat) : Option surefireTestcase :=
  (surefireSuites[i]?).bind fun s => s.Testcases[j]?

/-- The test case at position `j` of the suite at position `i` of the results
that the reader `b` produces for `surefireSuites`. -/
def producedCase? (b : JUnitReportsReader) (surefireSuites : List surefireTestsuite)
    (i j : Nat) : Option TestCase :=
  ((b.FromJUnitRepresentation surefireSuites).TestSuites[i]?).bind fun s => s.TestCases[j]?

/-- The records of a slice, none for the nil slice. -/
def records (runs : Option (List surefireRerun)) : List surefireRerun :=
  runs.getD []

/-- The suites built for a list of raw suites when the first of them gets the
address `n`. -/
def buildSuitesFrom (b : JUnitReportsReader) (n : Nat) : List surefireTestsuite → List testSuite
  | [] => []
  | s :: rest => buildSuite b n s :: buildSuitesFrom b (n + 1) rest

/-- The outcome of a raw case by the precedence of steps 1 to 4, before the
flaky override: the first of skip marker, failure problem and error problem
that is present decides, and Success is left when none is. -/
def precedenceOutcome (c : surefireTestcase) : Status :=
  if c.Skipped.isSome then Skip
  else if c.Failure.isSome then Failure
  else if c.Error.isSome then Error
  else Success

/-- The combined number of flaky-error and flaky-failure records of a raw case. -/
def flakyRecords (c : surefireTestcase) : Nat :=
  (records c.FlakyError).length + (records c.FlakyFailure).length

/-- The totals of a results object are the sums of what its suites report. -/
def TotalsAreSums (r : testResults) : Prop :=
  r.Tests = (r.TestSuites.map fun s => s.TestCases.length).sum ∧
  r.Successes = (r.TestSuites.map fun s => s.Success).sum ∧
  r.Failures = (r.TestSuites.map fun s => s.Failure).sum ∧
  r.Errors = (r.TestSuites.map fun s => s.Error).sum ∧
  r.Skipped = (r.TestSuites.map fun s => s.Skipped).sum ∧
  r.Flakes = (r.TestSuites.map fun s => s.FlakyTestCases.2.length).sum

/-- The suite object that a back-reference points to: the object with address
`p` is the element at position `p` of the suites of the results. -/
def testResults.deref (r : testResults) (p : Nat) : Option testSuite :=
  r.suites[p]?

/-- The elements of a produced collection, none for the nil slice. -/
def issues (out : Option (List RerunIssue)) : List RerunIssue :=
  out.getD []

/-- A produced rerun or flaky collection `out` with cached count `amount` is a
verbatim copy of the raw collection `raw`. -/
def CopiedVerbatim (raw : Option (List surefireRerun)) (out : Option (List RerunIssue))
    (amount : Nat) : Prop :=
  amount = (records raw).length ∧
  amount = (issues out).length ∧
  (∀ (k : Nat) (r : surefireRerun), (records raw)[k]? = some r →
    ∃ q : RerunIssue, (issues out)[k]? = some q ∧ q.Message = r.Message ∧ q.Stacktrace = r.Stacktrace ∧
      q.SystemOut = r.SystemOut ∧ q.SystemError = r.SystemError) ∧
  (records raw = [] → amount = 0 ∧ out = none)

/-- The suite `s` moved to the address `a`: the back-reference of each of its
cases is set to `a`. -/
def relocate (a : Nat) (s : testSuite) : testSuite :=
  { s with testcases := s.testcases.map fun tc => { tc with Suite := a } }

/-- A labeler that is a function of the visible state of the suite (name,
cases, counters) and not of the address at which the suite object lies. -/
def AddressBlind (f : Labeler) : Prop :=
  ∀ s a, f (relocate a s) = f s

/-! ### Notions used to state the properties of the loader -/

/-- An open, decode or close step of the location failed. -/
def stepFailed (fs : FileSystem) (file : String) : Prop :=
  (fs file).openFileError ≠ none ∨ (fs file).decoding.err ≠ none ∨
    (fs file).closeFileError ≠ none

instance (fs : FileSystem) (file : String) : Decidable (stepFailed fs file) := by
  unfold stepFailed
  exact inferInstance

/-- The failures that the worker of a location observes, in the order open,
decode, close; a decode failure is wrapped by `readReport`. -/
def observedErrors (fs : FileSystem) (file : String) : List GoError :=
  (match (fs file).openFileError with | some e => [e] | none => [])
    ++ (match (fs file).decoding.err with
        | some e => ["error decoding XML: " ++ e] | none => [])
    ++ (match (fs file).closeFileError with | some e => [e] | none => [])

/-- The suite that the worker of a location has to merge: the decoded suite
with its file name, when no step failed and the name is not empty. -/
def expectedSuites (fs : FileSystem) (file : String) : List surefireTestsuite :=
  if ¬ stepFailed fs file ∧ (fs file).decoding.testsuite.Name ≠ "" then
    [{ (fs file).decoding.testsuite with Filename := file }]
  else []

/-- The errors that a worker has still to append. -/
def pendingErrors (fs : FileSystem) (w : Worker) : List GoError :=
  match w.pc with
  | .start => observedErrors fs w.file
  | .errLock pending => pending
  | .errLoad pending => pending
  | .errStore _ e pending => e :: pending
  | _ => []

/-- The suite that a worker has still to append. -/
def pendingSuites (fs : FileSystem) (w : Worker) : List surefireTestsuite :=
  match w.pc with
  | .start => expectedSuites fs w.file
  | .repLock suite => if suite.Name ≠ "" then [suite] else []
  | .repLoad suite => if suite.Name ≠ "" then [suite] else []
  | .repStore _ suite => [suite]
  | _ => []

/-- 1 for a worker that has not yet called `wg.Done()`, else 0. -/
def beforeDone (w : Worker) : Nat :=
  match w.pc with
  | .errUnlock => 0
  | .repUnlock => 0
  | .finished => 0
  | _ => 1

/-- 1 for a worker between `errorMutex.Lock()` and `errorMutex.Unlock()`, else 0. -/
def holdsError (w : Worker) : Nat :=
  match w.pc with
  | .errLoad _ => 1
  | .errStore _ _ _ => 1
  | .errDone => 1
  | .errUnlock => 1
  | _ => 0

/-- 1 for a worker between `reportMutex.Lock()` and `reportMutex.Unlock()`, else 0. -/
def holdsReport (w : Worker) : Nat :=
  match w.pc with
  | .repLoad _ => 1
  | .repStore _ _ => 1
  | .repDone => 1
  | .repUnlock => 1
  | _ => 0

/-- A bound on the number of steps that a worker has still to take. -/
def remaining (fs : FileSystem) (w : Worker) : Nat :=
  match w.pc with
  | .start => 6 + 2 * (observedErrors fs w.file).length
  | .errLock pending => 4 + 2 * pending.length
  | .errLoad pending => 3 + 2 * pending.length
  | .errStore _ _ pending => 4 + 2 * pending.length
  | .errDone => 2
  | .errUnlock => 1
  | .repLock _ => 5
  | .repLoad _ => 4
  | .repStore _ _ => 3
  | .repDone => 2
  | .repUnlock => 1
  | .finished => 0

/-- A bound on the number of steps that the call has still to take. -/
def stepsLeft (fs : FileSystem) (s : Loader) : Nat :=
  (s.workers.map (remaining fs)).sum + (if s.returned = none then 1 else 0)

/-- The invariant of the states of a call of `parseSurefireReports` for the
locations `files`. -/
structure LoaderInv (fs : FileSystem) (files : List String) (s : Loader) : Prop where
  files_eq : s.workers.map (fun w => w.file) = files
  no_panic : s.panicked = false
  wg_eq : s.wg = (s.workers.map beforeDone).sum
  error_mutex : (if s.errorMutex then 1 else 0) = (s.workers.map holdsError).sum
  report_mutex : (if s.reportMutex then 1 else 0) = (s.workers.map holdsReport).sum
  errors_eq : ∀ x, s.errors.count x + (s.workers.map fun w => (pendingErrors fs w).count x).sum
    = (s.workers.map fun w => (observedErrors fs w.file).count x).sum
  suites_eq : ∀ x,
    s.testsuites.count x + (s.workers.map fun w => (pendingSuites fs w).count x).sum
    = (s.workers.map fun w => (expectedSuites fs w.file).count x).sum
  err_tmp : ∀ (j : Nat) (w : Worker) (tmp : List GoError) (e : GoError) (p : List GoError),
    s.workers[j]? = some w → w.pc = Pc.errStore tmp e p → tmp = s.errors
  rep_tmp : ∀ (j : Nat) (w : Worker) (tmp : List surefireTestsuite) (suite : surefireTestsuite),
    s.workers[j]? = some w → w.pc = Pc.repStore tmp suite → tmp = s.testsuites
  returned_eq : ∀ r, s.returned = some r →
    s.wg = 0 ∧ r = (if s.errors.length > 0 then (none, some (combinedError s.errors))
      else (some s.testsuites, none))


/-- The suite of a location when only its decode step is looked at: the
decoded suite with its file name, when decoding succeeded and the name is not
empty, whatever the open and close steps returned. -/
def decodedSuites (fs : FileSystem) (file : String) : List surefireTestsuite :=
  if (fs file).decoding.err = none ∧ (fs file).decoding.testsuite.Name ≠ "" then
    [{ (fs file).decoding.testsuite with Filename := file }]
  else []

/-! ## Sample inputs -/

/-- A raw case without markers and without rerun or flaky records. -/
def plainCase (name : String) : surefireTestcase :=
  { Name := name, Classname := "", Time := ⟨0⟩, Skipped := none, Failure := none,
    Error := none, ReRunErrors := none, ReRunFailures := none, FlakyError := none,
    FlakyFailure := none }

/-- A raw suite with the given name and cases. -/
def sampleSuite (name : String) (cases : List surefireTestcase) : surefireTestsuite :=
  { Suite := ("", "testsuite"), Name := name, Time := ⟨1⟩, Tests := 0, Errors := 0,
    Skipped := 0, Failures := 0, Testcases := cases, Filename := "" }

/-- A rerun record with the given message. -/
def sampleRerun (message : String) : surefireRerun :=
  { Message := message, Stacktrace := "", SystemOut := "", SystemError := "" }

/-- A raw case with a skip marker and a failure problem. -/
def skippedFailingCase : surefireTestcase :=
  { plainCase "Test-1" with
    Skipped := some { Message := "Skipped" },
    Failure := some { Message := "Failure-1", Data := "Failure-1-Data" } }

/-- A raw case with a failure problem and an error problem. -/
def failingErroringCase : surefireTestcase :=
  { plainCase "Test-2" with
    Failure := some { Message := "Failure-1", Data := "Failure-1-Data" },
    Error := some { Message := "Error-1", Data := "Error-1-Data" } }

/-- A raw case without markers and with one flaky-error record. -/
def flakyPassingCase : surefireTestcase :=
  { plainCase "FlakyTest-1" with FlakyError := some [sampleRerun "FlakyError-1"] }

/-- A raw case with a failure problem and one flaky-failure record. -/
def flakyFailingCase : surefireTestcase :=
  { plainCase "FlakyTest-2" with
    Failure := some { Message := "Failure-1", Data := "Failure-1-Data" },
    FlakyFailure := some [sampleRerun "FlakyFailure-1"] }

/-- The raw suites of the test `TestConvertNonIntersectedTestCasesResult`. -/
def nonIntersectedSuites : List surefireTestsuite :=
  [ sampleSuite "Failure-Suite"
      [ { plainCase "Test-1" with
          Failure := some { Message := "Failure-1", Data := "Failure-1-Data" } },
        { plainCase "Test-2" with
          Error := some { Message := "Error-1", Data := "Error-1-Data" } } ],
    sampleSuite "Success-Suite" [plainCase "Test-3"],
    sampleSuite "Skipped-Suite"
      [ { plainCase "Test-4" with Skipped := some { Message := "Skipped" } } ] ]

/-- The raw suites of the test `TestFlakyRuns`, with the messages of the
records only. -/
def flakyRunSuites : List surefireTestsuite :=
  [ sampleSuite "Flaky-Suite"
      [ { plainCase "FlakyTest-1" with
          ReRunErrors := some [sampleRerun "Rerun-Error-1", sampleRerun "Rerun-Error-2"],
          ReRunFailures := some [sampleRerun "Rerun-Failure-1", sampleRerun "Rerun-Failure-2"],
          FlakyError := some [sampleRerun "FlakyError-1", sampleRerun "FlakyError-2"],
          FlakyFailure := some [sampleRerun "FlakyFailure-1", sampleRerun "FlakyFailure-2"] } ] ]

/-- The reader without labeler, as built by the builder. -/
def plainReader : JUnitReportsReader := NewJUnitReportsReaderBuilder.Build

/-- A labeler that returns the labels x and y for every suite. -/
def xyLabeler : Labeler := fun _ => ["x", "y"]

/-- The reader with the labeler `xyLabeler`, as built by the builder. -/
def xyReader : JUnitReportsReader := (NewJUnitReportsReaderBuilder.WithLabeler xyLabeler).Build

/-- A raw case with two rerun-error records and its own duration. -/
def rerunCase : surefireTestcase :=
  { plainCase "Test-5" with
    Classname := "pkg.Class",
    Time := ⟨7⟩,
    ReRunErrors := some
      [ { Message := "Rerun-Error-1", Stacktrace := "Rerun-Error-1-Stacktrace",
          SystemOut := "Rerun-Error-1-SystemOut", SystemError := "Rerun-Error-1-SystemError" },
        { Message := "Rerun-Error-2", Stacktrace := "Rerun-Error-2-Stacktrace",
          SystemOut := "Rerun-Error-2-SystemOut", SystemError := "Rerun-Error-2-SystemError" } ],
    FlakyFailure := some [] }

/-- A file system with two readable reports, a readable report whose suite
has no name, and no other file: opening any other location fails, and so do
decoding and closing the file that was not opened. -/
def sampleFs : FileSystem := fun file =>
  if file = "a.xml" then
    { openFileError := none,
      decoding := { testsuite := sampleSuite "A" [plainCase "Test-1"], err := none },
      closeFileError := none }
  else if file = "b.xml" then
    { openFileError := none,
      decoding := { testsuite := sampleSuite "B" [skippedFailingCase], err := none },
      closeFileError := none }
  else if file = "empty.xml" then
    { openFileError := none,
      decoding := { testsuite := sampleSuite "" [plainCase "Test-2"], err := none },
      closeFileError := none }
  else
    { openFileError := some "open: no such file",
      decoding := { testsuite := zeroTestsuite, err := some "invalid argument" },
      closeFileError := some "invalid argument" }

/-- A schedule for the locations a.xml and empty.xml: both workers start, the
second one passes its critical section first, and the caller returns before
the first worker has unlocked the mutex. -/
def scheduleTwoReadable : List Action :=
  [.worker 0, .worker 1, .worker 1, .worker 1, .worker 1, .worker 1,
   .worker 0, .worker 0, .worker 0, .worker 0, .caller, .worker 0]

/-- A schedule for the locations a.xml, missing.xml and b.xml, in which the
critical sections of the two mutexes overlap. -/
def scheduleOneMissing : List Action :=
  [.worker 2, .worker 1, .worker 0, .worker 1, .worker 2, .worker 1, .worker 2, .worker 1,
   .worker 2, .worker 1, .worker 1, .worker 2, .worker 1, .worker 2, .worker 0, .worker 1,
   .worker 0, .worker 1, .worker 0, .worker 1, .worker 0, .worker 0, .caller, .worker 1]

/-- The first raw suite of `nonIntersectedSuites`. -/
def failureSuite : surefireTestsuite :=
  sampleSuite "Failure-Suite"
    [ { plainCase "Test-1" with
        Failure := some { Message := "Failure-1", Data := "Failure-1-Data" } },
      { plainCase "Test-2" with
        Error := some { Message := "Error-1", Data := "Error-1-Data" } } ]

/-- A file system in which every location opens and decodes to a suite with
the name C and one case, and closing the file fails. -/
def closeFailsFs : FileSystem := fun _ =>
  { openFileError := none,
    decoding := { testsuite := sampleSuite "C" [plainCase "Test-6"], err := none },
    closeFileError := some "close: input/output error" }

/-- A schedule for one location whose worker takes the error branch with one
error: the worker runs up to `wg.Done()`, the caller returns, and the worker
unlocks the mutex. -/
def scheduleCloseFails : List Action :=
  [.worker 0, .worker 0, .worker 0, .worker 0, .worker 0, .worker 0, .caller, .worker 0]

/-! ## Structure of the conversion -/

theorem filterLoop_eq (p : TestCase → Bool) (acc l : List TestCase) :
    filterLoop p acc l = acc ++ l.filter p := by
  induction l generalizing acc with
  | nil => simp [filterLoop]
  | cons x xs ih =>
    by_cases h : p x <;> simp [filterLoop, h, ih]

theorem caseBody_snd_indep (a : Nat) (rs : surefireTestsuite) (ts ts0 : testSuite)
    (c : surefireTestcase) : (caseBody a rs ts c).2 = (caseBody a rs ts0 c).2 := by
  unfold caseBody
  cases c.Skipped <;> cases c.Failure <;> cases c.Error <;> rfl

theorem caseBody_fst_testcases (a : Nat) (rs : surefireTestsuite) (ts : testSuite)
    (c : surefireTestcase) : (caseBody a rs ts c).1.testcases = ts.testcases := by
  unfold caseBody
  cases c.Skipped <;> cases c.Failure <;> cases c.Error <;> rfl

theorem foldl_caseStep_testcases (a : Nat) (rs : surefireTestsuite) (ts0 : testSuite)
    (cs : List surefireTestcase) (ts : testSuite) :
    (cs.foldl (caseStep a rs) ts).testcases
      = ts.testcases ++ cs.map (fun c => (caseBody a rs ts0 c).2) := by
  induction cs generalizing ts with
  | nil => simp
  | cons c cs ih =>
    rw [List.foldl_cons, ih]
    simp [caseStep, caseBody_fst_testcases, caseBody_snd_indep a rs ts ts0 c]

theorem buildSuite_testcases (b : JUnitReportsReader) (a : Nat) (rs : surefireTestsuite)
    (ts0 : testSuite) :
    (buildSuite b a rs).testcases = rs.Testcases.map (fun c => (caseBody a rs ts0 c).2) := by
  unfold buildSuite
  cases b.labeler <;> simp [foldl_caseStep_testcases a rs ts0]

theorem append_suites (r : testResults) (s : testSuite) :
    (r.append s).suites = r.suites ++ [s] := by
  simp [testResults.append, testSuite.FlakyTestCases, testSuite.filterTestCases]

theorem foldl_suiteStep_suites (b : JUnitReportsReader) (l : List surefireTestsuite)
    (r : testResults) :
    (l.foldl (suiteStep b) r).suites = r.suites ++ buildSuitesFrom b r.suites.length l := by
  induction l generalizing r with
  | nil => simp [buildSuitesFrom]
  | cons s rest ih =>
    rw [List.foldl_cons, ih]
    simp [suiteStep, append_suites, buildSuitesFrom]

theorem FromJUnitRepresentation_suites (b : JUnitReportsReader) (l : List surefireTestsuite) :
    (b.FromJUnitRepresentation l).suites = buildSuitesFrom b 0 l := by
  simp [JUnitReportsReader.FromJUnitRepresentation, foldl_suiteStep_suites]

theorem buildSuitesFrom_getElem? (b : JUnitReportsReader) (l : List surefireTestsuite)
    (n i : Nat) : (buildSuitesFrom b n l)[i]? = (l[i]?).map (buildSuite b (n + i)) := by
  induction l generalizing n i with
  | nil => simp [buildSuitesFrom]
  | cons s rest ih =>
    cases i with
    | zero => simp [buildSuitesFrom]
    | succ k =>
      simp only [buildSuitesFrom, List.getElem?_cons_succ, ih]
      have e : n + 1 + k = n + (k + 1) := by omega
      rw [e]

theorem producedCase?_eq (b : JUnitReportsReader) (l : List surefireTestsuite) (i j : Nat)
    (ts0 : testSuite) :
    producedCase? b l i j
      = (l[i]?).bind fun rs => (rs.Testcases[j]?).map fun c => (caseBody i rs ts0 c).2 := by
  unfold producedCase?
  rw [testResults.TestSuites, FromJUnitRepresentation_suites, buildSuitesFrom_getElem?]
  cases l[i]? with
  | none => rfl
  | some rs =>
    simp [testSuite.TestCases, buildSuite_testcases b i rs ts0]

/-- When the raw case exists, so does the produced case, and it is the case
that the loop body builds from it. -/
theorem producedCase?_of_raw (b : JUnitReportsReader) (l : List surefireTestsuite) (i j : Nat)
    (c : surefireTestcase) (h : rawCase? l i j = some c) :
    ∃ rs, l[i]? = some rs ∧ ∀ ts0, producedCase? b l i j = some (caseBody i rs ts0 c).2 := by
  unfold rawCase? at h
  cases hl : l[i]? with
  | none => simp [hl] at h
  | some rs =>
    simp only [hl, Option.some_bind] at h
    refine ⟨rs, rfl, fun ts0 => ?_⟩
    rw [producedCase?_eq b l i j ts0]
    simp [hl, h]

theorem amountOf_eq (runs : Option (List surefireRerun)) :
    amountOf runs = (records runs).length := by
  cases runs <;> rfl

theorem caseBody_fst_counters (a : Nat) (rs : surefireTestsuite) (ts : testSuite)
    (c : surefireTestcase) :
    (caseBody a rs ts c).1.successes
        = ts.successes + (if precedenceOutcome c == Success then 1 else 0) ∧
    (caseBody a rs ts c).1.failures
        = ts.failures + (if precedenceOutcome c == Failure then 1 else 0) ∧
    (caseBody a rs ts c).1.errors
        = ts.errors + (if precedenceOutcome c == Error then 1 else 0) ∧
    (caseBody a rs ts c).1.skipped
        = ts.skipped + (if precedenceOutcome c == Skip then 1 else 0) := by
  rcases c with ⟨n, cn, t, sk, fl, er, r1, r2, f1, f2⟩
  unfold caseBody precedenceOutcome
  cases sk <;> cases fl <;> cases er <;>
    simp [optionalTestProblem, Success, Failure, Error, Skip]

theorem foldl_caseStep_counters (a : Nat) (rs : surefireTestsuite)
    (cs : List surefireTestcase) (ts : testSuite) :
    (cs.foldl (caseStep a rs) ts).successes
        = ts.successes + cs.countP (fun c => precedenceOutcome c == Success) ∧
    (cs.foldl (caseStep a rs) ts).failures
        = ts.failures + cs.countP (fun c => precedenceOutcome c == Failure) ∧
    (cs.foldl (caseStep a rs) ts).errors
        = ts.errors + cs.countP (fun c => precedenceOutcome c == Error) ∧
    (cs.foldl (caseStep a rs) ts).skipped
        = ts.skipped + cs.countP (fun c => precedenceOutcome c == Skip) := by
  induction cs generalizing ts with
  | nil => simp
  | cons c cs ih =>
    obtain ⟨h1, h2, h3, h4⟩ := caseBody_fst_counters a rs ts c
    obtain ⟨i1, i2, i3, i4⟩ := ih (caseStep a rs ts c)
    simp only [List.foldl_cons, i1, i2, i3, i4, List.countP_cons]
    simp only [caseStep, h1, h2, h3, h4]
    omega

theorem buildSuite_counters (b : JUnitReportsReader) (a : Nat) (rs : surefireTestsuite) :
    (buildSuite b a rs).successes
        = rs.Testcases.countP (fun c => precedenceOutcome c == Success) ∧
    (buildSuite b a rs).failures
        = rs.Testcases.countP (fun c => precedenceOutcome c == Failure) ∧
    (buildSuite b a rs).errors
        = rs.Testcases.countP (fun c => precedenceOutcome c == Error) ∧
    (buildSuite b a rs).skipped
        = rs.Testcases.countP (fun c => precedenceOutcome c == Skip) := by
  unfold buildSuite
  cases b.labeler <;> simp [foldl_caseStep_counters a rs]

theorem mem_buildSuitesFrom (b : JUnitReportsReader) (l : List surefireTestsuite) (n : Nat)
    (s : testSuite) (h : s ∈ buildSuitesFrom b n l) :
    ∃ a rs, rs ∈ l ∧ s = buildSuite b a rs := by
  induction l generalizing n with
  | nil => simp [buildSuitesFrom] at h
  | cons x rest ih =>
    simp only [buildSuitesFrom, List.mem_cons] at h
    rcases h with h | h
    · exact ⟨n, x, by simp, h⟩
    · obtain ⟨a, rs, hm, he⟩ := ih (n + 1) h
      exact ⟨a, rs, by simp [hm], he⟩

theorem mem_TestSuites (b : JUnitReportsReader) (l : List surefireTestsuite) (s : testSuite)
    (h : s ∈ (b.FromJUnitRepresentation l).TestSuites) :
    ∃ a rs, rs ∈ l ∧ s = buildSuite b a rs := by
  rw [testResults.TestSuites, FromJUnitRepresentation_suites] at h
  exact mem_buildSuitesFrom b l 0 s h

theorem precedenceOutcome_partition (cs : List surefireTestcase) :
    cs.countP (fun c => precedenceOutcome c == Success)
      + cs.countP (fun c => precedenceOutcome c == Failure)
      + cs.countP (fun c => precedenceOutcome c == Error)
      + cs.countP (fun c => precedenceOutcome c == Skip) = cs.length := by
  induction cs with
  | nil => simp
  | cons c cs ih =>
    simp only [List.countP_cons, List.length_cons]
    have : (if (precedenceOutcome c == Success) = true then 1 else 0)
        + (if (precedenceOutcome c == Failure) = true then 1 else 0)
        + (if (precedenceOutcome c == Error) = true then 1 else 0)
        + (if (precedenceOutcome c == Skip) = true then 1 else 0) = 1 := by
      rcases c with ⟨n, cn, t, sk, fl, er, r1, r2, f1, f2⟩
      unfold precedenceOutcome
      cases sk <;> cases fl <;> cases er <;> simp [Success, Failure, Error, Skip]
    omega

theorem TestSuites_getElem? (b : JUnitReportsReader) (l : List surefireTestsuite) (i : Nat) :
    (b.FromJUnitRepresentation l).TestSuites[i]? = (l[i]?).map (buildSuite b i) := by
  rw [testResults.TestSuites, FromJUnitRepresentation_suites, buildSuitesFrom_getElem?]
  simp

theorem caseBody_snd_Status (a : Nat) (rs : surefireTestsuite) (ts : testSuite)
    (c : surefireTestcase) :
    (caseBody a rs ts c).2.Status
      = if 0 < flakyRecords c then Flaky else precedenceOutcome c := by
  rcases c with ⟨n, cn, t, sk, fl, er, r1, r2, f1, f2⟩
  unfold caseBody precedenceOutcome flakyRecords
  simp only [amountOf_eq]
  cases sk <;> cases fl <;> cases er <;> rfl

theorem caseBody_snd_Issue_isSome (a : Nat) (rs : surefireTestsuite) (ts : testSuite)
    (c : surefireTestcase) :
    (caseBody a rs ts c).2.Issue.isSome
      = (precedenceOutcome c == Failure || precedenceOutcome c == Error) := by
  rcases c with ⟨n, cn, t, sk, fl, er, r1, r2, f1, f2⟩
  unfold caseBody precedenceOutcome
  cases sk <;> cases fl <;> cases er <;> rfl

theorem caseBody_snd_Skipped_isSome (a : Nat) (rs : surefireTestsuite) (ts : testSuite)
    (c : surefireTestcase) :
    (caseBody a rs ts c).2.Skipped.isSome = (precedenceOutcome c == Skip) := by
  rcases c with ⟨n, cn, t, sk, fl, er, r1, r2, f1, f2⟩
  unfold caseBody precedenceOutcome
  cases sk <;> cases fl <;> cases er <;> rfl

theorem caseBody_snd_flaky (a : Nat) (rs : surefireTestsuite) (ts : testSuite)
    (c : surefireTestcase) :
    ((caseBody a rs ts c).2.AmountFlakyErrors != 0
        || (caseBody a rs ts c).2.AmountFlakyFailures != 0)
      = decide (0 < flakyRecords c) := by
  rcases c with ⟨n, cn, t, sk, fl, er, r1, r2, f1, f2⟩
  have e : ∀ x y : Nat, (x != 0 || y != 0) = decide (0 < x + y) := by
    intro x y
    cases x <;> cases y <;> simp
  unfold caseBody flakyRecords
  simp only [amountOf_eq]
  exact e _ _

theorem precedenceOutcome_cases (c : surefireTestcase) :
    precedenceOutcome c = Success ∨ precedenceOutcome c = Failure
      ∨ precedenceOutcome c = Error ∨ precedenceOutcome c = Skip := by
  unfold precedenceOutcome
  split
  · exact Or.inr (Or.inr (Or.inr rfl))
  · split
    · exact Or.inr (Or.inl rfl)
    · split
      · exact Or.inr (Or.inr (Or.inl rfl))
      · exact Or.inl rfl

theorem append_TotalsAreSums (r : testResults) (s : testSuite) (h : TotalsAreSums r) :
    TotalsAreSums (r.append s) := by
  obtain ⟨h1, h2, h3, h4, h5, h6⟩ := h
  simp only [testResults.Tests, testResults.Successes, testResults.Failures,
    testResults.Errors, testResults.Skipped, testResults.Flakes,
    testResults.TestSuites] at h1 h2 h3 h4 h5 h6
  simp [TotalsAreSums, testResults.append, testResults.Tests, testResults.Successes,
    testResults.Failures, testResults.Errors, testResults.Skipped, testResults.Flakes,
    testResults.TestSuites, testSuite.FlakyTestCases, testSuite.filterTestCases,
    h1, h2, h3, h4, h5, h6]

theorem foldl_suiteStep_TotalsAreSums (b : JUnitReportsReader) (l : List surefireTestsuite)
    (r : testResults) (h : TotalsAreSums r) : TotalsAreSums (l.foldl (suiteStep b) r) := by
  induction l generalizing r with
  | nil => exact h
  | cons s rest ih => exact ih _ (append_TotalsAreSums r _ h)

theorem caseBody_snd_payload_count (a : Nat) (rs : surefireTestsuite) (ts : testSuite)
    (c : surefireTestcase) :
    (if precedenceOutcome c == Failure then 1 else 0)
      + (if precedenceOutcome c == Error then 1 else 0)
      + (if precedenceOutcome c == Skip then 1 else 0)
    = (if ((caseBody a rs ts c).2.Status == Failure || (caseBody a rs ts c).2.Status == Error
          || (caseBody a rs ts c).2.Status == Skip) then 1 else 0)
      + (if ((caseBody a rs ts c).2.Status == Flaky
          && ((caseBody a rs ts c).2.Issue.isSome || (caseBody a rs ts c).2.Skipped.isSome))
          then 1 else 0) := by
  rw [caseBody_snd_Status, caseBody_snd_Issue_isSome, caseBody_snd_Skipped_isSome]
  by_cases hpos : 0 < flakyRecords c <;>
    rcases precedenceOutcome_cases c with h | h | h | h <;>
    simp [hpos, h, Success, Failure, Error, Skip, Flaky]

theorem payload_count_list (a : Nat) (rs : surefireTestsuite) (ts : testSuite)
    (cs : List surefireTestcase) :
    cs.countP (fun c => precedenceOutcome c == Failure)
      + cs.countP (fun c => precedenceOutcome c == Error)
      + cs.countP (fun c => precedenceOutcome c == Skip)
    = (cs.map fun c => (caseBody a rs ts c).2).countP (fun tc =>
          tc.Status == Failure || tc.Status == Error || tc.Status == Skip)
      + (cs.map fun c => (caseBody a rs ts c).2).countP (fun tc =>
          tc.Status == Flaky && (tc.Issue.isSome || tc.Skipped.isSome)) := by
  induction cs with
  | nil => simp
  | cons c cs ih =>
    have h := caseBody_snd_payload_count a rs ts c
    simp only [List.map_cons, List.countP_cons]
    omega

theorem getElem?_mid {α : Type} (pre post : List α) (x : α) :
    (pre ++ x :: post)[pre.length]? = some x := by
  induction pre with
  | nil => simp
  | cons y ys ih => simpa using ih

theorem map_buildSuitesFrom {α : Type} (b : JUnitReportsReader) (g : testSuite → α)
    (g2 : surefireTestsuite → α) (h : ∀ a rs, g (buildSuite b a rs) = g2 rs)
    (l : List surefireTestsuite) (n : Nat) : (buildSuitesFrom b n l).map g = l.map g2 := by
  induction l generalizing n with
  | nil => rfl
  | cons x rest ih => simp [buildSuitesFrom, h, ih]

theorem buildSuite_flaky_length (b : JUnitReportsReader) (a : Nat) (rs : surefireTestsuite) :
    (buildSuite b a rs).FlakyTestCases.2.length
      = rs.Testcases.countP (fun c => decide (0 < flakyRecords c)) := by
  simp only [testSuite.FlakyTestCases, testSuite.filterTestCases, filterLoop_eq,
    List.nil_append, ← List.countP_eq_length_filter,
    buildSuite_testcases b a rs (buildSuite b a rs), List.countP_map]
  apply List.countP_congr
  intro c _
  have h := caseBody_snd_flaky a rs (buildSuite b a rs) c
  simp only [Function.comp] at h ⊢
  rw [h]

theorem FromJUnitRepresentation_flakes (b : JUnitReportsReader) (l : List surefireTestsuite) :
    (b.FromJUnitRepresentation l).Flakes
      = (l.map fun rs => rs.Testcases.countP (fun c => decide (0 < flakyRecords c))).sum := by
  have h := foldl_suiteStep_TotalsAreSums b l
    { tests := 0, successes := 0, failures := 0, errors := 0, skipped := 0, flakes := 0,
      suites := [] }
    (by simp [TotalsAreSums, testResults.Tests, testResults.Successes, testResults.Failures,
      testResults.Errors, testResults.Skipped, testResults.Flakes, testResults.TestSuites])
  have h6 : (b.FromJUnitRepresentation l).Flakes
      = ((b.FromJUnitRepresentation l).TestSuites.map fun s =>
          s.FlakyTestCases.2.length).sum := h.2.2.2.2.2
  rw [h6, testResults.TestSuites, FromJUnitRepresentation_suites,
    map_buildSuitesFrom b _ _ (buildSuite_flaky_length b)]

theorem caseBody_fst_meta (a : Nat) (rs : surefireTestsuite) (ts : testSuite)
    (c : surefireTestcase) :
    (caseBody a rs ts c).1.name = ts.name ∧ (caseBody a rs ts c).1.filename = ts.filename ∧
    (caseBody a rs ts c).1.time = ts.time ∧ (caseBody a rs ts c).1.labels = ts.labels := by
  rcases c with ⟨n, cn, t, sk, fl, er, r1, r2, f1, f2⟩
  unfold caseBody
  cases sk <;> cases fl <;> cases er <;> exact ⟨rfl, rfl, rfl, rfl⟩

theorem foldl_caseStep_meta (a : Nat) (rs : surefireTestsuite) (cs : List surefireTestcase)
    (ts : testSuite) :
    (cs.foldl (caseStep a rs) ts).name = ts.name ∧
    (cs.foldl (caseStep a rs) ts).filename = ts.filename ∧
    (cs.foldl (caseStep a rs) ts).time = ts.time ∧
    (cs.foldl (caseStep a rs) ts).labels = ts.labels := by
  induction cs generalizing ts with
  | nil => exact ⟨rfl, rfl, rfl, rfl⟩
  | cons c cs ih =>
    obtain ⟨h1, h2, h3, h4⟩ := caseBody_fst_meta a rs ts c
    obtain ⟨i1, i2, i3, i4⟩ := ih (caseStep a rs ts c)
    simp only [List.foldl_cons, i1, i2, i3, i4]
    simp only [caseStep, h1, h2, h3, h4, and_self]

theorem buildSuite_meta (b : JUnitReportsReader) (a : Nat) (rs : surefireTestsuite) :
    (buildSuite b a rs).name = rs.Name ∧ (buildSuite b a rs).filename = rs.Filename ∧
    (buildSuite b a rs).time = rs.Time := by
  unfold buildSuite
  cases b.labeler <;> simp [foldl_caseStep_meta a rs]

theorem buildSuite_labels (b : JUnitReportsReader) (a : Nat) (rs : surefireTestsuite) :
    (∀ f, b.labeler = some f →
      (buildSuite b a rs).labels = f { buildSuite b a rs with labels := [] }) ∧
    (b.labeler = none → (buildSuite b a rs).labels = []) := by
  unfold buildSuite
  constructor
  · intro f hf
    simp only [hf]
    congr 1
    have h := (foldl_caseStep_meta a rs rs.Testcases
      { name := rs.Name, filename := rs.Filename, time := rs.Time, testcases := [],
        successes := 0, failures := 0, errors := 0, skipped := 0, labels := [] }).2.2.2
    generalize List.foldl (caseStep a rs) _ rs.Testcases = t at h ⊢
    cases t
    simp only at h
    simp [h]
  · intro hf
    simp only [hf]
    exact (foldl_caseStep_meta a rs rs.Testcases _).2.2.2

theorem buildSuitesFrom_length (b : JUnitReportsReader) (l : List surefireTestsuite) (n : Nat) :
    (buildSuitesFrom b n l).length = l.length := by
  induction l generalizing n with
  | nil => rfl
  | cons x rest ih => simp [buildSuitesFrom, ih]

theorem TestSuites_length (b : JUnitReportsReader) (l : List surefireTestsuite) :
    (b.FromJUnitRepresentation l).TestSuites.length = l.length := by
  rw [testResults.TestSuites, FromJUnitRepresentation_suites, buildSuitesFrom_length]

theorem caseBody_snd_copied (a : Nat) (rs : surefireTestsuite) (ts : testSuite)
    (c : surefireTestcase) :
    (caseBody a rs ts c).2.Name = c.Name ∧
    (caseBody a rs ts c).2.Classname = c.Classname ∧
    (caseBody a rs ts c).2.Fullname = c.Classname ++ "." ++ c.Name ∧
    (caseBody a rs ts c).2.Suite = a ∧
    (caseBody a rs ts c).2.Time = rs.Time := by
  rcases c with ⟨n, cn, t, sk, fl, er, r1, r2, f1, f2⟩
  unfold caseBody
  cases sk <;> cases fl <;> cases er <;> exact ⟨rfl, rfl, rfl, rfl, rfl⟩

theorem caseBody_snd_reruns (a : Nat) (rs : surefireTestsuite) (ts : testSuite)
    (c : surefireTestcase) :
    ((caseBody a rs ts c).2.RerunErrors = toReRunIssues c.ReRunErrors ∧
      (caseBody a rs ts c).2.AmountRerunErrors = amountOf c.ReRunErrors) ∧
    ((caseBody a rs ts c).2.RerunFailures = toReRunIssues c.ReRunFailures ∧
      (caseBody a rs ts c).2.AmountRerunFailures = amountOf c.ReRunFailures) ∧
    ((caseBody a rs ts c).2.FlakyErrors = toReRunIssues c.FlakyError ∧
      (caseBody a rs ts c).2.AmountFlakyErrors = amountOf c.FlakyError) ∧
    ((caseBody a rs ts c).2.FlakyFailures = toReRunIssues c.FlakyFailure ∧
      (caseBody a rs ts c).2.AmountFlakyFailures = amountOf c.FlakyFailure) := by
  rcases c with ⟨n, cn, t, sk, fl, er, r1, r2, f1, f2⟩
  unfold caseBody
  cases sk <;> cases fl <;> cases er <;> exact ⟨⟨rfl, rfl⟩, ⟨rfl, rfl⟩, ⟨rfl, rfl⟩, ⟨rfl, rfl⟩⟩

theorem toReRunIssues_copied (raw : Option (List surefireRerun)) :
    CopiedVerbatim raw (toReRunIssues raw) (amountOf raw) := by
  cases raw with
  | none => simp [CopiedVerbatim, toReRunIssues, amountOf, records, issues]
  | some runs =>
    cases runs with
    | nil => simp [CopiedVerbatim, toReRunIssues, amountOf, records, issues]
    | cons x xs =>
      refine ⟨rfl, by simp [toReRunIssues, amountOf, issues], ?_, by simp [records]⟩
      intro k r hk
      simp only [records, Option.getD_some] at hk
      simp only [toReRunIssues, issues, List.length_cons, Nat.add_one_ne_zero, if_false,
        Option.getD_some, List.getElem?_map, hk, Option.map_some']
      exact ⟨_, rfl, rfl, rfl, rfl, rfl⟩

theorem caseStep_relocate (a a2 : Nat) (rs : surefireTestsuite) (ts : testSuite)
    (c : surefireTestcase) :
    caseStep a2 rs (relocate a2 ts) c = relocate a2 (caseStep a rs ts c) := by
  rcases c with ⟨n, cn, t, sk, fl, er, r1, r2, f1, f2⟩
  unfold caseStep caseBody relocate
  cases sk <;> cases fl <;> cases er <;> simp [optionalTestProblem]

theorem foldl_caseStep_relocate (a a2 : Nat) (rs : surefireTestsuite)
    (cs : List surefireTestcase) (ts : testSuite) :
    cs.foldl (caseStep a2 rs) (relocate a2 ts) = relocate a2 (cs.foldl (caseStep a rs) ts) := by
  induction cs generalizing ts with
  | nil => rfl
  | cons c cs ih => rw [List.foldl_cons, List.foldl_cons, caseStep_relocate a a2, ih]

theorem buildSuite_relocate (b : JUnitReportsReader) (a a2 : Nat) (rs : surefireTestsuite)
    (hblind : ∀ f, b.labeler = some f → AddressBlind f) :
    buildSuite b a2 rs = relocate a2 (buildSuite b a rs) := by
  have h := foldl_caseStep_relocate a a2 rs rs.Testcases
    { name := rs.Name, filename := rs.Filename, time := rs.Time, testcases := [],
      successes := 0, failures := 0, errors := 0, skipped := 0, labels := [] }
  have h0 : relocate a2
      { name := rs.Name, filename := rs.Filename, time := rs.Time, testcases := [],
        successes := 0, failures := 0, errors := 0, skipped := 0, labels := [] }
      = { name := rs.Name, filename := rs.Filename, time := rs.Time, testcases := [],
          successes := 0, failures := 0, errors := 0, skipped := 0, labels := [] } := rfl
  rw [h0] at h
  unfold buildSuite
  cases hl : b.labeler with
  | none => simpa using h
  | some f =>
    simp only [h, hblind f hl _ a2]
    rfl

theorem FromJUnitRepresentation_totals (b : JUnitReportsReader) (l : List surefireTestsuite) :
    (b.FromJUnitRepresentation l).Tests = (l.map fun rs => rs.Testcases.length).sum ∧
    (b.FromJUnitRepresentation l).Successes
      = (l.map fun rs => rs.Testcases.countP (fun c => precedenceOutcome c == Success)).sum ∧
    (b.FromJUnitRepresentation l).Failures
      = (l.map fun rs => rs.Testcases.countP (fun c => precedenceOutcome c == Failure)).sum ∧
    (b.FromJUnitRepresentation l).Errors
      = (l.map fun rs => rs.Testcases.countP (fun c => precedenceOutcome c == Error)).sum ∧
    (b.FromJUnitRepresentation l).Skipped
      = (l.map fun rs => rs.Testcases.countP (fun c => precedenceOutcome c == Skip)).sum := by
  have h := foldl_suiteStep_TotalsAreSums b l
    { tests := 0, successes := 0, failures := 0, errors := 0, skipped := 0, flakes := 0,
      suites := [] }
    (by simp [TotalsAreSums, testResults.Tests, testResults.Successes, testResults.Failures,
      testResults.Errors, testResults.Skipped, testResults.Flakes, testResults.TestSuites])
  obtain ⟨h1, h2, h3, h4, h5, -⟩ :
      TotalsAreSums (b.FromJUnitRepresentation l) := h
  rw [h1, h2, h3, h4, h5, testResults.TestSuites, FromJUnitRepresentation_suites]
  refine ⟨?_, ?_, ?_, ?_, ?_⟩
  · rw [map_buildSuitesFrom b _ (fun rs => rs.Testcases.length)]
    intro a rs
    rw [testSuite.TestCases, buildSuite_testcases b a rs (buildSuite b a rs), List.length_map]
  · rw [map_buildSuitesFrom b (fun s => s.Success) _
      (fun a rs => (buildSuite_counters b a rs).1)]
  · rw [map_buildSuitesFrom b (fun s => s.Failure) _
      (fun a rs => (buildSuite_counters b a rs).2.1)]
  · rw [map_buildSuitesFrom b (fun s => s.Error) _
      (fun a rs => (buildSuite_counters b a rs).2.2.1)]
  · rw [map_buildSuitesFrom b (fun s => s.Skipped) _
      (fun a rs => (buildSuite_counters b a rs).2.2.2)]

/-! ## The concurrent loader: invariant -/

theorem sum_map_set {α : Type} (f : α → Nat) (l : List α) (i : Nat) (w w2 : α)
    (h : l[i]? = some w) : ((l.set i w2).map f).sum + f w = (l.map f).sum + f w2 := by
  induction l generalizing i with
  | nil => simp at h
  | cons x xs ih =>
    cases i with
    | zero =>
      simp only [List.getElem?_cons_zero, Option.some.injEq] at h
      subst h
      simp only [List.set_cons_zero, List.map_cons, List.sum_cons]
      omega
    | succ k =>
      simp only [List.getElem?_cons_succ] at h
      have := ih k h
      simp only [List.set_cons_succ, List.map_cons, List.sum_cons]
      omega

theorem le_sum_map {α : Type} (f : α → Nat) (l : List α) (i : Nat) (w : α)
    (h : l[i]? = some w) : f w ≤ (l.map f).sum := by
  induction l generalizing i with
  | nil => simp at h
  | cons x xs ih =>
    cases i with
    | zero =>
      simp only [List.getElem?_cons_zero, Option.some.injEq] at h
      subst h
      simp only [List.map_cons, List.sum_cons]
      omega
    | succ k =>
      simp only [List.getElem?_cons_succ] at h
      have := ih k h
      simp only [List.map_cons, List.sum_cons]
      omega

theorem two_le_sum_map {α : Type} (f : α → Nat) (l : List α) (i j : Nat) (w v : α)
    (hij : i ≠ j) (hi : l[i]? = some w) (hj : l[j]? = some v) :
    f w + f v ≤ (l.map f).sum := by
  induction l generalizing i j with
  | nil => simp at hi
  | cons x xs ih =>
    cases i with
    | zero =>
      cases j with
      | zero => exact absurd rfl hij
      | succ k =>
        simp only [List.getElem?_cons_zero, Option.some.injEq] at hi
        simp only [List.getElem?_cons_succ] at hj
        subst hi
        have := le_sum_map f xs k v hj
        simp only [List.map_cons, List.sum_cons]
        omega
    | succ m =>
      cases j with
      | zero =>
        simp only [List.getElem?_cons_zero, Option.some.injEq] at hj
        simp only [List.getElem?_cons_succ] at hi
        subst hj
        have := le_sum_map f xs m w hi
        simp only [List.map_cons, List.sum_cons]
        omega
      | succ k =>
        simp only [List.getElem?_cons_succ] at hi hj
        have hmk : m ≠ k := fun e => hij (by rw [e])
        have := ih m k hmk hi hj
        simp only [List.map_cons, List.sum_cons]
        omega

theorem sum_map_eq_zero {α : Type} (f : α → Nat) (l : List α) (h : ∀ w ∈ l, f w = 0) :
    (l.map f).sum = 0 := by
  induction l with
  | nil => rfl
  | cons x xs ih =>
    simp only [List.map_cons, List.sum_cons]
    rw [h x (by simp), ih (fun w hw => h w (by simp [hw]))]

theorem map_file_set (l : List Worker) (i : Nat) (w : Worker) (pc : Pc)
    (h : l[i]? = some w) :
    (l.set i { w with pc := pc }).map (fun w => w.file) = l.map (fun w => w.file) := by
  induction l generalizing i with
  | nil => simp at h
  | cons x xs ih =>
    cases i with
    | zero =>
      simp only [List.getElem?_cons_zero, Option.some.injEq] at h
      subst h
      simp
    | succ k =>
      simp only [List.getElem?_cons_succ] at h
      simp [ih k h]

/-- The invariant is kept when the worker `w` at position `i` moves to `pc2`
and the shared variables change as far as the side conditions allow. -/
theorem LoaderInv.goto {fs : FileSystem} {files : List String} {s s2 : Loader} {i : Nat}
    {w : Worker} {pc2 : Pc} (hinv : LoaderInv fs files s) (hw : s.workers[i]? = some w)
    (hworkers : s2.workers = s.workers.set i { w with pc := pc2 })
    (hpanic : s2.panicked = s.panicked) (hret : s2.returned = s.returned)
    (hwg : s2.wg + beforeDone w = s.wg + beforeDone { w with pc := pc2 })
    (hem : (if s2.errorMutex then 1 else 0) + holdsError w
      = (if s.errorMutex then 1 else 0) + holdsError { w with pc := pc2 })
    (hrm : (if s2.reportMutex then 1 else 0) + holdsReport w
      = (if s.reportMutex then 1 else 0) + holdsReport { w with pc := pc2 })
    (herr : ∀ x, s2.errors.count x + (pendingErrors fs { w with pc := pc2 }).count x
      = s.errors.count x + (pendingErrors fs w).count x)
    (hsuite : ∀ x, s2.testsuites.count x + (pendingSuites fs { w with pc := pc2 }).count x
      = s.testsuites.count x + (pendingSuites fs w).count x)
    (herrNew : ∀ tmp e p, pc2 = .errStore tmp e p → tmp = s2.errors)
    (herrOld : s2.errors = s.errors ∨ holdsError w = 1)
    (hrepNew : ∀ tmp suite, pc2 = .repStore tmp suite → tmp = s2.testsuites)
    (hrepOld : s2.testsuites = s.testsuites ∨ holdsReport w = 1)
    (hkeep : beforeDone w = 1 ∨
      (s2.wg = s.wg ∧ s2.errors = s.errors ∧ s2.testsuites = s.testsuites)) :
    LoaderInv fs files s2 := by
  have hbd := sum_map_set beforeDone s.workers i w { w with pc := pc2 } hw
  have hhe := sum_map_set holdsError s.workers i w { w with pc := pc2 } hw
  have hhr := sum_map_set holdsReport s.workers i w { w with pc := pc2 } hw
  refine ⟨?_, ?_, ?_, ?_, ?_, ?_, ?_, ?_, ?_, ?_⟩
  · rw [hworkers, map_file_set _ _ _ _ hw]; exact hinv.files_eq
  · rw [hpanic]; exact hinv.no_panic
  · rw [hworkers]
    have := hinv.wg_eq
    omega
  · rw [hworkers]
    have := hinv.error_mutex
    omega
  · rw [hworkers]
    have := hinv.report_mutex
    omega
  · intro x
    rw [hworkers]
    have h1 := sum_map_set (fun w => (pendingErrors fs w).count x) s.workers i w
      { w with pc := pc2 } hw
    have h2 := sum_map_set (fun w => (observedErrors fs w.file).count x) s.workers i w
      { w with pc := pc2 } hw
    have h3 := hinv.errors_eq x
    have h4 := herr x
    simp only at h1 h2
    omega
  · intro x
    rw [hworkers]
    have h1 := sum_map_set (fun w => (pendingSuites fs w).count x) s.workers i w
      { w with pc := pc2 } hw
    have h2 := sum_map_set (fun w => (expectedSuites fs w.file).count x) s.workers i w
      { w with pc := pc2 } hw
    have h3 := hinv.suites_eq x
    have h4 := hsuite x
    simp only at h1 h2
    omega
  · intro j v tmp e p hv hpc
    rw [hworkers] at hv
    by_cases hij : i = j
    · subst hij
      rw [List.getElem?_set_eq_of_lt _ (by
        rcases List.getElem?_eq_some.mp hw with ⟨hlt, -⟩; exact hlt)] at hv
      simp only [Option.some.injEq] at hv
      subst hv
      exact herrNew tmp e p hpc
    · rw [List.getElem?_set_ne hij] at hv
      have hold := hinv.err_tmp j v tmp e p hv hpc
      rcases herrOld with h | h
      · rw [h]; exact hold
      · exfalso
        have h2 := two_le_sum_map holdsError s.workers i j w v hij hw hv
        have h3 : holdsError v = 1 := by simp [holdsError, hpc]
        have h4 := hinv.error_mutex
        split at h4 <;> omega
  · intro j v tmp suite hv hpc
    rw [hworkers] at hv
    by_cases hij : i = j
    · subst hij
      rw [List.getElem?_set_eq_of_lt _ (by
        rcases List.getElem?_eq_some.mp hw with ⟨hlt, -⟩; exact hlt)] at hv
      simp only [Option.some.injEq] at hv
      subst hv
      exact hrepNew tmp suite hpc
    · rw [List.getElem?_set_ne hij] at hv
      have hold := hinv.rep_tmp j v tmp suite hv hpc
      rcases hrepOld with h | h
      · rw [h]; exact hold
      · exfalso
        have h2 := two_le_sum_map holdsReport s.workers i j w v hij hw hv
        have h3 : holdsReport v = 1 := by simp [holdsReport, hpc]
        have h4 := hinv.report_mutex
        split at h4 <;> omega
  · intro r hr
    rw [hret] at hr
    obtain ⟨h0, hr2⟩ := hinv.returned_eq r hr
    have hle := le_sum_map beforeDone s.workers i w hw
    have hwg0 := hinv.wg_eq
    rcases hkeep with h | ⟨h1, h2, h3⟩
    · omega
    · rw [h1, h2, h3]; exact ⟨h0, hr2⟩

theorem start_facts (fs : FileSystem) (file : String) :
    (((fs file).openFileError.isSome || (readReport (fs file).decoding).2.isSome
        || (fs file).closeFileError.isSome) = true ↔ stepFailed fs file) ∧
    [(fs file).openFileError, (readReport (fs file).decoding).2,
        (fs file).closeFileError].reduceOption = observedErrors fs file ∧
    (stepFailed fs file ↔ observedErrors fs file ≠ []) ∧
    (¬ stepFailed fs file →
      (readReport (fs file).decoding).1 = (fs file).decoding.testsuite) := by
  unfold stepFailed observedErrors readReport
  rcases fs file with ⟨oe, ⟨ts, de⟩, ce⟩
  cases oe <;> cases de <;> cases ce <;> simp [List.reduceOption]

theorem stepWorker_inv {fs : FileSystem} {files : List String} {s s2 : Loader} {i : Nat}
    (hinv : LoaderInv fs files s) (h : stepWorker fs s i = some s2) :
    LoaderInv fs files s2 := by
  unfold stepWorker at h
  cases hw : s.workers[i]? with
  | none => simp [hw] at h
  | some w =>
    rcases w with ⟨file, pc⟩
    simp only [hw] at h
    have hbd := le_sum_map beforeDone s.workers i _ hw
    have hhe := le_sum_map holdsError s.workers i _ hw
    have hhr := le_sum_map holdsReport s.workers i _ hw
    have hwg := hinv.wg_eq
    have hem := hinv.error_mutex
    have hrm := hinv.report_mutex
    obtain ⟨f1, f2, f3, f4⟩ := start_facts fs file
    cases pc with
    | start =>
      simp only at h
      split at h
      · rename_i hfail
        obtain rfl := Option.some.inj h
        refine hinv.goto hw rfl rfl rfl ?_ ?_ ?_ ?_ ?_ ?_ ?_ ?_ ?_ ?_ <;>
          simp [Loader.goto, beforeDone, holdsError, holdsReport, pendingErrors, pendingSuites,
            f2, expectedSuites, f1.mp hfail]
      · rename_i hfail
        obtain rfl := Option.some.inj h
        have hnf : ¬ stepFailed fs file := fun hf => hfail (f1.mpr hf)
        refine hinv.goto hw rfl rfl rfl ?_ ?_ ?_ ?_ ?_ ?_ ?_ ?_ ?_ ?_ <;>
          simp [Loader.goto, beforeDone, holdsError, holdsReport, pendingErrors, pendingSuites,
            expectedSuites, hnf, f4 hnf, not_not.mp (fun hne => hnf (f3.mpr hne))]
    | errLock p =>
      simp only at h
      split at h
      · simp at h
      · rename_i hfree
        obtain rfl := Option.some.inj h
        refine hinv.goto hw rfl rfl rfl ?_ ?_ ?_ ?_ ?_ ?_ ?_ ?_ ?_ ?_ <;>
          simp [Loader.goto, beforeDone, holdsError, holdsReport, pendingErrors, pendingSuites,
            hfree]
    | errLoad p =>
      cases p with
      | nil =>
        simp only at h
        obtain rfl := Option.some.inj h
        refine hinv.goto hw rfl rfl rfl ?_ ?_ ?_ ?_ ?_ ?_ ?_ ?_ ?_ ?_ <;>
          simp [Loader.goto, beforeDone, holdsError, holdsReport, pendingErrors, pendingSuites]
      | cons e p =>
        simp only at h
        obtain rfl := Option.some.inj h
        refine hinv.goto hw rfl rfl rfl ?_ ?_ ?_ ?_ ?_ ?_ ?_ ?_ ?_ ?_ <;>
          simp [Loader.goto, beforeDone, holdsError, holdsReport, pendingErrors, pendingSuites]
    | errStore tmp e p =>
      simp only at h
      obtain rfl := Option.some.inj h
      have htmp := hinv.err_tmp i _ tmp e p hw rfl
      subst htmp
      refine hinv.goto hw rfl rfl rfl ?_ ?_ ?_ ?_ ?_ ?_ ?_ ?_ ?_ ?_ <;>
        simp [Loader.goto, beforeDone, holdsError, holdsReport, pendingErrors, pendingSuites,
          List.count_cons]
      intro x
      omega
    | errDone =>
      simp only at h
      have hb : beforeDone { file := file, pc := Pc.errDone } = 1 := rfl
      split at h
      · omega
      · obtain rfl := Option.some.inj h
        refine hinv.goto hw rfl rfl rfl ?_ ?_ ?_ ?_ ?_ ?_ ?_ ?_ ?_ ?_ <;>
          simp [Loader.goto, beforeDone, holdsError, holdsReport, pendingErrors, pendingSuites]
        omega
    | errUnlock =>
      simp only at h
      have hb : holdsError { file := file, pc := Pc.errUnlock } = 1 := rfl
      split at h
      · rename_i hlocked
        obtain rfl := Option.some.inj h
        refine hinv.goto hw rfl rfl rfl ?_ ?_ ?_ ?_ ?_ ?_ ?_ ?_ ?_ ?_ <;>
          simp [Loader.goto, beforeDone, holdsError, holdsReport, pendingErrors, pendingSuites,
            hlocked]
      · rename_i hfree
        simp only [hfree] at hem
        simp at hem
        omega
    | repLock suite =>
      simp only at h
      split at h
      · simp at h
      · rename_i hfree
        obtain rfl := Option.some.inj h
        refine hinv.goto hw rfl rfl rfl ?_ ?_ ?_ ?_ ?_ ?_ ?_ ?_ ?_ ?_ <;>
          simp [Loader.goto, beforeDone, holdsError, holdsReport, pendingErrors, pendingSuites,
            hfree]
    | repLoad suite =>
      simp only at h
      split at h
      · rename_i hname
        obtain rfl := Option.some.inj h
        refine hinv.goto hw rfl rfl rfl ?_ ?_ ?_ ?_ ?_ ?_ ?_ ?_ ?_ ?_ <;>
          simp [Loader.goto, beforeDone, holdsError, holdsReport, pendingErrors, pendingSuites,
            hname]
      · rename_i hname
        obtain rfl := Option.some.inj h
        refine hinv.goto hw rfl rfl rfl ?_ ?_ ?_ ?_ ?_ ?_ ?_ ?_ ?_ ?_ <;>
          simp [Loader.goto, beforeDone, holdsError, holdsReport, pendingErrors, pendingSuites,
            hname]
    | repStore tmp suite =>
      simp only at h
      obtain rfl := Option.some.inj h
      have htmp := hinv.rep_tmp i _ tmp suite hw rfl
      subst htmp
      refine hinv.goto hw rfl rfl rfl ?_ ?_ ?_ ?_ ?_ ?_ ?_ ?_ ?_ ?_ <;>
        simp [Loader.goto, beforeDone, holdsError, holdsReport, pendingErrors, pendingSuites,
          List.count_cons]
    | repDone =>
      simp only at h
      have hb : beforeDone { file := file, pc := Pc.repDone } = 1 := rfl
      split at h
      · omega
      · obtain rfl := Option.some.inj h
        refine hinv.goto hw rfl rfl rfl ?_ ?_ ?_ ?_ ?_ ?_ ?_ ?_ ?_ ?_ <;>
          simp [Loader.goto, beforeDone, holdsError, holdsReport, pendingErrors, pendingSuites]
        omega
    | repUnlock =>
      simp only at h
      have hb : holdsReport { file := file, pc := Pc.repUnlock } = 1 := rfl
      split at h
      · rename_i hlocked
        obtain rfl := Option.some.inj h
        refine hinv.goto hw rfl rfl rfl ?_ ?_ ?_ ?_ ?_ ?_ ?_ ?_ ?_ ?_ <;>
          simp [Loader.goto, beforeDone, holdsError, holdsReport, pendingErrors, pendingSuites,
            hlocked]
      · rename_i hfree
        simp only [hfree] at hrm
        simp at hrm
        omega
    | finished => simp at h
theorem stepMain_inv {fs : FileSystem} {files : List String} {s s2 : Loader}
    (hinv : LoaderInv fs files s) (h : stepMain s = some s2) : LoaderInv fs files s2 := by
  unfold stepMain at h
  cases hr : s.returned with
  | some r => simp [hr] at h
  | none =>
    simp only [hr] at h
    split at h
    · simp at h
    · rename_i hwg
      have hwg0 : s.wg = 0 := not_not.mp hwg
      split at h
      · rename_i hlen
        obtain rfl := Option.some.inj h
        exact ⟨hinv.files_eq, hinv.no_panic, hinv.wg_eq, hinv.error_mutex, hinv.report_mutex,
          hinv.errors_eq, hinv.suites_eq, hinv.err_tmp, hinv.rep_tmp,
          fun r hr2 => ⟨hwg0, by
            have e := (Option.some.inj hr2).symm
            simp only [] at e ⊢
            rw [if_pos hlen]; exact e⟩⟩
      · rename_i hlen
        obtain rfl := Option.some.inj h
        exact ⟨hinv.files_eq, hinv.no_panic, hinv.wg_eq, hinv.error_mutex, hinv.report_mutex,
          hinv.errors_eq, hinv.suites_eq, hinv.err_tmp, hinv.rep_tmp,
          fun r hr2 => ⟨hwg0, by
            have e := (Option.some.inj hr2).symm
            simp only [] at e ⊢
            rw [if_neg hlen]; exact e⟩⟩

theorem step_inv {fs : FileSystem} {files : List String} {s s2 : Loader} {a : Action}
    (hinv : LoaderInv fs files s) (h : step fs s a = some s2) : LoaderInv fs files s2 := by
  unfold step at h
  split at h
  · simp at h
  · cases a with
    | worker i => exact stepWorker_inv hinv h
    | caller => exact stepMain_inv hinv h

theorem run_inv {fs : FileSystem} {files : List String} {schedule : List Action}
    {s s2 : Loader} (hinv : LoaderInv fs files s) (h : run fs s schedule = some s2) :
    LoaderInv fs files s2 := by
  induction schedule generalizing s with
  | nil =>
    simp only [run, Option.some.injEq] at h
    exact h ▸ hinv
  | cons a rest ih =>
    simp only [run] at h
    cases hs : step fs s a with
    | none => simp [hs] at h
    | some s1 =>
      simp only [hs, Option.some_bind] at h
      exact ih (step_inv hinv hs) h

theorem initLoader_inv (fs : FileSystem) (files : List String) :
    LoaderInv fs files (initLoader files) := by
  refine ⟨?_, rfl, ?_, ?_, ?_, ?_, ?_, ?_, ?_, ?_⟩
  · simp only [initLoader, List.map_map]
    exact List.map_id _
  · simp only [initLoader, List.map_map]
    induction files with
    | nil => rfl
    | cons f fs ih => simp only [List.length_cons, List.map_cons, List.sum_cons, ← ih]
                      simp [beforeDone]; omega
  · simp only [initLoader, List.map_map]
    rw [sum_map_eq_zero]
    · rfl
    · intro w _; rfl
  · simp only [initLoader, List.map_map]
    rw [sum_map_eq_zero]
    · rfl
    · intro w _; rfl
  · intro x
    simp only [initLoader, List.map_map, List.count_nil, Nat.zero_add]
    rfl
  · intro x
    simp only [initLoader, List.map_map, List.count_nil, Nat.zero_add]
    rfl
  · intro j w tmp e p hw hpc
    simp only [initLoader, List.getElem?_map] at hw
    cases hf : files[j]? with
    | none => simp [hf] at hw
    | some f =>
      simp only [hf, Option.map_some', Option.some.injEq] at hw
      subst hw
      simp at hpc
  · intro j w tmp suite hw hpc
    simp only [initLoader, List.getElem?_map] at hw
    cases hf : files[j]? with
    | none => simp [hf] at hw
    | some f =>
      simp only [hf, Option.map_some', Option.some.injEq] at hw
      subst hw
      simp at hpc
  · intro r hr
    simp [initLoader] at hr

/-- When the call has returned, every worker is past `wg.Done()`, the shared
slices hold what the workers had to append, and the returned pair is the one
that the length of `errors` decides. -/
theorem LoaderInv.at_return {fs : FileSystem} {files : List String} {s : Loader}
    {r : Option (List surefireTestsuite) × Option GoError}
    (hinv : LoaderInv fs files s) (hr : s.returned = some r) :
    s.testsuites.Perm (files.flatMap (expectedSuites fs)) ∧
    s.errors.Perm (files.flatMap (observedErrors fs)) ∧
    (∀ w ∈ s.workers, beforeDone w = 0) ∧
    r = (if s.errors.length > 0 then (none, some (combinedError s.errors))
      else (some s.testsuites, none)) := by
  obtain ⟨hwg0, hr2⟩ := hinv.returned_eq r hr
  have hall : ∀ w ∈ s.workers, beforeDone w = 0 := by
    intro w hw
    obtain ⟨j, hj⟩ := List.getElem?_of_mem hw
    have := le_sum_map beforeDone s.workers j w hj
    have := hinv.wg_eq
    omega
  have hpe : ∀ w ∈ s.workers, pendingErrors fs w = [] := by
    intro w hw
    have h0 := hall w hw
    rcases w with ⟨file, pc⟩
    cases pc <;> simp [beforeDone] at h0 <;> rfl
  have hps : ∀ w ∈ s.workers, pendingSuites fs w = [] := by
    intro w hw
    have h0 := hall w hw
    rcases w with ⟨file, pc⟩
    cases pc <;> simp [beforeDone] at h0 <;> rfl
  refine ⟨?_, ?_, hall, hr2⟩
  · rw [List.perm_iff_count]
    intro x
    have h := hinv.suites_eq x
    rw [sum_map_eq_zero _ _ (fun w hw => by rw [hps w hw]; rfl), Nat.add_zero] at h
    rw [h, List.flatMap_def, List.count_flatten, ← hinv.files_eq, List.map_map, List.map_map]
    rfl
  · rw [List.perm_iff_count]
    intro x
    have h := hinv.errors_eq x
    rw [sum_map_eq_zero _ _ (fun w hw => by rw [hpe w hw]; rfl), Nat.add_zero] at h
    rw [h, List.flatMap_def, List.count_flatten, ← hinv.files_eq, List.map_map, List.map_map]
    rfl
/-! ## The concurrent loader: every execution can be completed -/

theorem exists_of_sum_pos {α : Type} (f : α → Nat) (l : List α) (h : 0 < (l.map f).sum) :
    ∃ (k : Nat) (v : α), l[k]? = some v ∧ 0 < f v := by
  induction l with
  | nil => simp at h
  | cons x xs ih =>
    simp only [List.map_cons, List.sum_cons] at h
    by_cases hx : 0 < f x
    · exact ⟨0, x, by simp, hx⟩
    · obtain ⟨k, v, hk, hv⟩ := ih (by omega)
      exact ⟨k + 1, v, by simpa using hk, hv⟩

theorem stepsLeft_goto {fs : FileSystem} {s s2 : Loader} {i : Nat} {w w2 : Worker}
    (hw : s.workers[i]? = some w) (hworkers : s2.workers = s.workers.set i w2)
    (hret : s2.returned = s.returned) (hlt : remaining fs w2 < remaining fs w) :
    stepsLeft fs s2 < stepsLeft fs s := by
  have h := sum_map_set (remaining fs) s.workers i w w2 hw
  unfold stepsLeft
  rw [hworkers, hret]
  omega

theorem stepWorker_stepsLeft {fs : FileSystem} {files : List String} {s s2 : Loader} {i : Nat}
    (hinv : LoaderInv fs files s) (h : stepWorker fs s i = some s2) :
    stepsLeft fs s2 < stepsLeft fs s := by
  unfold stepWorker at h
  cases hw : s.workers[i]? with
  | none => simp [hw] at h
  | some w =>
    rcases w with ⟨file, pc⟩
    simp only [hw] at h
    have hbd := le_sum_map beforeDone s.workers i _ hw
    have hhe := le_sum_map holdsError s.workers i _ hw
    have hhr := le_sum_map holdsReport s.workers i _ hw
    have hwg := hinv.wg_eq
    have hem := hinv.error_mutex
    have hrm := hinv.report_mutex
    obtain ⟨-, f2, -, -⟩ := start_facts fs file
    cases pc with
    | start =>
      simp only at h
      split at h
      · obtain rfl := Option.some.inj h
        exact stepsLeft_goto hw rfl rfl (by simp [remaining, f2])
      · obtain rfl := Option.some.inj h
        exact stepsLeft_goto hw rfl rfl (by simp [remaining]; omega)
    | errLock p =>
      simp only at h
      split at h
      · simp at h
      · obtain rfl := Option.some.inj h
        exact stepsLeft_goto hw rfl rfl (by simp [remaining])
    | errLoad p =>
      cases p with
      | nil =>
        simp only at h
        obtain rfl := Option.some.inj h
        exact stepsLeft_goto hw rfl rfl (by simp [remaining])
      | cons e p =>
        simp only at h
        obtain rfl := Option.some.inj h
        exact stepsLeft_goto hw rfl rfl (by simp [remaining]; omega)
    | errStore tmp e p =>
      simp only at h
      obtain rfl := Option.some.inj h
      exact stepsLeft_goto hw rfl rfl (by simp [remaining])
    | errDone =>
      simp only at h
      have hb : beforeDone { file := file, pc := Pc.errDone } = 1 := rfl
      split at h
      · omega
      · obtain rfl := Option.some.inj h
        exact stepsLeft_goto hw rfl rfl (by simp [remaining])
    | errUnlock =>
      simp only at h
      have hb : holdsError { file := file, pc := Pc.errUnlock } = 1 := rfl
      split at h
      · obtain rfl := Option.some.inj h
        exact stepsLeft_goto hw rfl rfl (by simp [remaining])
      · rename_i hfree
        simp only [hfree] at hem
        simp at hem
        omega
    | repLock suite =>
      simp only at h
      split at h
      · simp at h
      · obtain rfl := Option.some.inj h
        exact stepsLeft_goto hw rfl rfl (by simp [remaining])
    | repLoad suite =>
      simp only at h
      split at h
      · obtain rfl := Option.some.inj h
        exact stepsLeft_goto hw rfl rfl (by simp [remaining])
      · obtain rfl := Option.some.inj h
        exact stepsLeft_goto hw rfl rfl (by simp [remaining])
    | repStore tmp suite =>
      simp only at h
      obtain rfl := Option.some.inj h
      exact stepsLeft_goto hw rfl rfl (by simp [remaining])
    | repDone =>
      simp only at h
      have hb : beforeDone { file := file, pc := Pc.repDone } = 1 := rfl
      split at h
      · omega
      · obtain rfl := Option.some.inj h
        exact stepsLeft_goto hw rfl rfl (by simp [remaining])
    | repUnlock =>
      simp only at h
      have hb : holdsReport { file := file, pc := Pc.repUnlock } = 1 := rfl
      split at h
      · obtain rfl := Option.some.inj h
        exact stepsLeft_goto hw rfl rfl (by simp [remaining])
      · rename_i hfree
        simp only [hfree] at hrm
        simp at hrm
        omega
    | finished => simp at h

theorem stepMain_stepsLeft {fs : FileSystem} {s s2 : Loader} (h : stepMain s = some s2) :
    stepsLeft fs s2 < stepsLeft fs s := by
  unfold stepMain at h
  cases hr : s.returned with
  | some r => simp [hr] at h
  | none =>
    simp only [hr] at h
    split at h
    · simp at h
    · split at h <;>
      · obtain rfl := Option.some.inj h
        simp [stepsLeft, hr]

theorem step_stepsLeft {fs : FileSystem} {files : List String} {s s2 : Loader} {a : Action}
    (hinv : LoaderInv fs files s) (h : step fs s a = some s2) :
    stepsLeft fs s2 < stepsLeft fs s := by
  unfold step at h
  split at h
  · simp at h
  · cases a with
    | worker i => exact stepWorker_stepsLeft hinv h
    | caller => exact stepMain_stepsLeft h

/-- A worker inside a critical section, or at its start, can take a step. -/
theorem stepWorker_enabled (fs : FileSystem) (s : Loader) (k : Nat) (v : Worker)
    (hv : s.workers[k]? = some v)
    (h : 0 < holdsError v ∨ 0 < holdsReport v ∨ v.pc = Pc.start) :
    ∃ s2, stepWorker fs s k = some s2 := by
  rcases v with ⟨file, pc⟩
  unfold stepWorker
  simp only [hv]
  cases pc with
  | start => simp only; split <;> exact ⟨_, rfl⟩
  | errLock p => simp [holdsError, holdsReport] at h
  | errLoad p => cases p <;> exact ⟨_, rfl⟩
  | errStore tmp e p => exact ⟨_, rfl⟩
  | errDone => simp only; split <;> exact ⟨_, rfl⟩
  | errUnlock => simp only; split <;> exact ⟨_, rfl⟩
  | repLock suite => simp [holdsError, holdsReport] at h
  | repLoad suite => simp only; split <;> exact ⟨_, rfl⟩
  | repStore tmp suite => exact ⟨_, rfl⟩
  | repDone => simp only; split <;> exact ⟨_, rfl⟩
  | repUnlock => simp only; split <;> exact ⟨_, rfl⟩
  | finished => simp [holdsError, holdsReport] at h

/-- No deadlock: as long as the call has not returned, some goroutine can take
a step. -/
theorem step_progress {fs : FileSystem} {files : List String} {s : Loader}
    (hinv : LoaderInv fs files s) (hr : s.returned = none) :
    ∃ a s2, step fs s a = some s2 := by
  have hnp := hinv.no_panic
  have worker_step : ∀ k s2, stepWorker fs s k = some s2 →
      ∃ a s2, step fs s a = some s2 := by
    intro k s2 h
    exact ⟨Action.worker k, s2, by simp [step, hnp, h]⟩
  by_cases hex : ∃ (j : Nat) (w : Worker), s.workers[j]? = some w ∧ w.pc ≠ Pc.finished
  · obtain ⟨j, w, hw, hpc⟩ := hex
    rcases w with ⟨file, pc⟩
    have inside : (0 < holdsError { file := file, pc := pc }
        ∨ 0 < holdsReport { file := file, pc := pc } ∨ pc = Pc.start) →
        ∃ a s2, step fs s a = some s2 := by
      intro h
      obtain ⟨s2, h2⟩ := stepWorker_enabled fs s j _ hw h
      exact worker_step j s2 h2
    cases pc with
    | start => exact inside (Or.inr (Or.inr rfl))
    | errLock p =>
      by_cases hm : s.errorMutex = true
      · have hem := hinv.error_mutex
        rw [if_pos hm] at hem
        obtain ⟨k, v, hv, hpos⟩ := exists_of_sum_pos holdsError s.workers (by omega)
        obtain ⟨s2, h2⟩ := stepWorker_enabled fs s k v hv (Or.inl hpos)
        exact worker_step k s2 h2
      · exact worker_step j
          ({ s with errorMutex := true }.goto j { file := file, pc := Pc.errLock p }
            (Pc.errLoad p))
          (by simp [stepWorker, hw, hm])
    | errLoad p => exact inside (Or.inl (by simp [holdsError]))
    | errStore tmp e p => exact inside (Or.inl (by simp [holdsError]))
    | errDone => exact inside (Or.inl (by simp [holdsError]))
    | errUnlock => exact inside (Or.inl (by simp [holdsError]))
    | repLock suite =>
      by_cases hm : s.reportMutex = true
      · have hrm := hinv.report_mutex
        rw [if_pos hm] at hrm
        obtain ⟨k, v, hv, hpos⟩ := exists_of_sum_pos holdsReport s.workers (by omega)
        obtain ⟨s2, h2⟩ := stepWorker_enabled fs s k v hv (Or.inr (Or.inl hpos))
        exact worker_step k s2 h2
      · exact worker_step j
          ({ s with reportMutex := true }.goto j { file := file, pc := Pc.repLock suite }
            (Pc.repLoad suite))
          (by simp [stepWorker, hw, hm])
    | repLoad suite => exact inside (Or.inr (Or.inl (by simp [holdsReport])))
    | repStore tmp suite => exact inside (Or.inr (Or.inl (by simp [holdsReport])))
    | repDone => exact inside (Or.inr (Or.inl (by simp [holdsReport])))
    | repUnlock => exact inside (Or.inr (Or.inl (by simp [holdsReport])))
    | finished => exact absurd rfl hpc
  · have hall : ∀ w ∈ s.workers, beforeDone w = 0 := by
      intro w hw
      obtain ⟨j, hj⟩ := List.getElem?_of_mem hw
      have hfin : w.pc = Pc.finished := by
        by_contra hne
        exact hex ⟨j, w, hj, hne⟩
      simp [beforeDone, hfin]
    have hwg : s.wg = 0 := by
      rw [hinv.wg_eq]
      exact sum_map_eq_zero _ _ hall
    by_cases hl : s.errors.length > 0
    · exact ⟨Action.caller,
        { s with returned := some (none, some (combinedError s.errors)) },
        by simp [step, hnp, stepMain, hr, hwg, hl]⟩
    · exact ⟨Action.caller, { s with returned := some (some s.testsuites, none) },
        by simp [step, hnp, stepMain, hr, hwg, hl]⟩

/-- From every state of the call there is a schedule under which the call
returns. -/
theorem exists_returning_schedule {fs : FileSystem} {files : List String} (n : Nat) :
    ∀ s : Loader, LoaderInv fs files s → stepsLeft fs s ≤ n →
      ∃ schedule s2 r, run fs s schedule = some s2 ∧ s2.returned = some r := by
  induction n with
  | zero =>
    intro s hinv hn
    cases hr : s.returned with
    | some r => exact ⟨[], s, r, rfl, hr⟩
    | none =>
      simp [stepsLeft, hr] at hn
  | succ n ih =>
    intro s hinv hn
    cases hr : s.returned with
    | some r => exact ⟨[], s, r, rfl, hr⟩
    | none =>
      obtain ⟨a, s1, h1⟩ := step_progress hinv hr
      have hlt := step_stepsLeft hinv h1
      obtain ⟨schedule, s2, r, h2, h3⟩ := ih s1 (step_inv hinv h1) (by omega)
      exact ⟨a :: schedule, s2, r, by simp [run, h1, h2], h3⟩
theorem run_initLoader_at_return {fs : FileSystem} {files : List String}
    {schedule : List Action} {s : Loader}
    {r : Option (List surefireTestsuite) × Option GoError}
    (hrun : run fs (initLoader files) schedule = some s) (hr : s.returned = some r) :
    s.testsuites.Perm (files.flatMap (expectedSuites fs)) ∧
    s.errors.Perm (files.flatMap (observedErrors fs)) ∧
    (∀ w ∈ s.workers, beforeDone w = 0) ∧
    r = (if s.errors.length > 0 then (none, some (combinedError s.errors))
      else (some s.testsuites, none)) :=
  (run_inv (initLoader_inv fs files) hrun).at_return hr

theorem observedErrors_ne_nil_iff (fs : FileSystem) (file : String) :
    observedErrors fs file ≠ [] ↔ stepFailed fs file :=
  (start_facts fs file).2.2.1.symm

theorem errors_ne_nil_iff {fs : FileSystem} {files : List String} {errors : List GoError}
    (h : errors.Perm (files.flatMap (observedErrors fs))) :
    errors ≠ [] ↔ ∃ file ∈ files, stepFailed fs file := by
  constructor
  · intro hne
    obtain ⟨x, hx⟩ := List.exists_mem_of_ne_nil errors hne
    obtain ⟨file, hf, hxf⟩ := List.mem_flatMap.mp (h.mem_iff.mp hx)
    exact ⟨file, hf, (observedErrors_ne_nil_iff fs file).mp (List.ne_nil_of_mem hxf)⟩
  · rintro ⟨file, hf, hfail⟩ hnil
    obtain ⟨x, hx⟩ := List.exists_mem_of_ne_nil _
      ((observedErrors_ne_nil_iff fs file).mpr hfail)
    have hmem : x ∈ errors := h.mem_iff.mpr (List.mem_flatMap.mpr ⟨file, hf, hx⟩)
    rw [hnil] at hmem
    simp at hmem

/-- What `parseSurefireReports` returns when it returns. -/
theorem parseSurefireReports_returns {fs : FileSystem} {files : List String}
    {schedule : List Action} {r : Option (List surefireTestsuite) × Option GoError}
    (h : parseSurefireReports fs schedule files = some r) :
    ((∃ file ∈ files, stepFailed fs file) →
      ∃ errors, errors.Perm (files.flatMap (observedErrors fs)) ∧ errors ≠ [] ∧
        r = (none, some (combinedError errors))) ∧
    ((¬ ∃ file ∈ files, stepFailed fs file) →
      ∃ suites, suites.Perm (files.flatMap (expectedSuites fs)) ∧ r = (some suites, none)) := by
  unfold parseSurefireReports at h
  cases hrun : run fs (initLoader files) schedule with
  | none => simp [hrun] at h
  | some s =>
    simp only [hrun, Option.some_bind] at h
    obtain ⟨h1, h2, -, h4⟩ := run_initLoader_at_return hrun h
    have hiff := errors_ne_nil_iff h2
    constructor
    · intro hfail
      have hne : s.errors ≠ [] := hiff.mpr hfail
      have hlen : s.errors.length > 0 := List.length_pos.mpr hne
      rw [if_pos hlen] at h4
      exact ⟨s.errors, h2, hne, h4⟩
    · intro hnofail
      have hnil : s.errors = [] := by
        by_contra hne
        exact hnofail (hiff.mp hne)
      have hlen : ¬ s.errors.length > 0 := by simp [hnil]
      rw [if_neg hlen] at h4
      exact ⟨s.testsuites, h1, h4⟩

theorem parseSurefireReports_can_return (fs : FileSystem) (files : List String) :
    ∃ schedule r, parseSurefireReports fs schedule files = some r := by
  obtain ⟨schedule, s2, r, h1, h2⟩ := exists_returning_schedule (stepsLeft fs (initLoader files))
    (initLoader files) (initLoader_inv fs files) (Nat.le_refl _)
  exact ⟨schedule, r, by simp [parseSurefireReports, h1, h2]⟩

theorem expectedSuites_name {fs : FileSystem} {files : List String} {rs : surefireTestsuite}
    (h : rs ∈ files.flatMap (expectedSuites fs)) : rs.Name ≠ "" := by
  obtain ⟨file, -, hrs⟩ := List.mem_flatMap.mp h
  unfold expectedSuites at hrs
  split at hrs
  · rename_i hok
    simp only [List.mem_singleton] at hrs
    subst hrs
    exact hok.2
  · simp at hrs

/-! ## Agreement of the counters with the queries -/

theorem countP_add_of_disjoint {α : Type} (p q : α → Bool) (l : List α)
    (h : ∀ x, ¬ (p x = true ∧ q x = true)) :
    l.countP p + l.countP q = l.countP (fun x => p x || q x) := by
  induction l with
  | nil => rfl
  | cons x xs ih =>
    have hx := h x
    simp only [List.countP_cons]
    cases hp : p x <;> cases hq : q x <;> simp_all <;> omega

theorem caseBody_snd_success_query (a : Nat) (rs : surefireTestsuite) (ts : testSuite)
    (c : surefireTestcase) :
    ((caseBody a rs ts c).2.Issue.isNone && (caseBody a rs ts c).2.Skipped.isNone)
      = (precedenceOutcome c == Success) := by
  have hi := caseBody_snd_Issue_isSome a rs ts c
  have hk := caseBody_snd_Skipped_isSome a rs ts c
  have ei : (caseBody a rs ts c).2.Issue.isNone = !(caseBody a rs ts c).2.Issue.isSome := by
    cases (caseBody a rs ts c).2.Issue <;> rfl
  have ek : (caseBody a rs ts c).2.Skipped.isNone
      = !(caseBody a rs ts c).2.Skipped.isSome := by
    cases (caseBody a rs ts c).2.Skipped <;> rfl
  rw [ei, ek, hi, hk]
  rcases precedenceOutcome_cases c with h | h | h | h <;>
    simp [h, Success, Failure, Error, Skip]

theorem caseBody_snd_status_flaky (a : Nat) (rs : surefireTestsuite) (ts : testSuite)
    (c : surefireTestcase) :
    ((caseBody a rs ts c).2.Status == Flaky) = decide (0 < flakyRecords c) := by
  rw [caseBody_snd_Status]
  by_cases hpos : 0 < flakyRecords c
  · simp [hpos]
  · rcases precedenceOutcome_cases c with h | h | h | h <;>
      simp [hpos, h, Success, Failure, Error, Skip, Flaky]

theorem buildSuite_query_lengths (b : JUnitReportsReader) (a : Nat) (rs : surefireTestsuite) :
    (buildSuite b a rs).SuccessfulTestCases.2.length
        = rs.Testcases.countP (fun c => precedenceOutcome c == Success) ∧
    (buildSuite b a rs).SkippedTestCases.2.length
        = rs.Testcases.countP (fun c => precedenceOutcome c == Skip) ∧
    (buildSuite b a rs).NonSuccessfulTestCases.2.length
        = rs.Testcases.countP
            (fun c => precedenceOutcome c == Failure || precedenceOutcome c == Error) := by
  refine ⟨?_, ?_, ?_⟩
  · simp only [testSuite.SuccessfulTestCases, testSuite.filterTestCases, filterLoop_eq,
      List.nil_append, ← List.countP_eq_length_filter,
      buildSuite_testcases b a rs (buildSuite b a rs), List.countP_map]
    apply List.countP_congr
    intro c _
    have h := caseBody_snd_success_query a rs (buildSuite b a rs) c
    simp only [Function.comp] at h ⊢
    rw [h]
  · simp only [testSuite.SkippedTestCases, testSuite.filterTestCases, filterLoop_eq,
      List.nil_append, ← List.countP_eq_length_filter,
      buildSuite_testcases b a rs (buildSuite b a rs), List.countP_map]
    apply List.countP_congr
    intro c _
    have h := caseBody_snd_Skipped_isSome a rs (buildSuite b a rs) c
    simp only [Function.comp] at h ⊢
    rw [h]
  · simp only [testSuite.NonSuccessfulTestCases, testSuite.filterTestCases, filterLoop_eq,
      List.nil_append, ← List.countP_eq_length_filter,
      buildSuite_testcases b a rs (buildSuite b a rs), List.countP_map]
    apply List.countP_congr
    intro c _
    have h := caseBody_snd_Issue_isSome a rs (buildSuite b a rs) c
    simp only [Function.comp] at h ⊢
    rw [h]

theorem buildSuite_payload_exclusive (b : JUnitReportsReader) (a : Nat)
    (rs : surefireTestsuite) (tc : TestCase) (htc : tc ∈ (buildSuite b a rs).testcases) :
    ¬ (tc.Issue.isSome = true ∧ tc.Skipped.isSome = true) := by
  rw [buildSuite_testcases b a rs (buildSuite b a rs), List.mem_map] at htc
  obtain ⟨c, -, rfl⟩ := htc
  rw [caseBody_snd_Issue_isSome, caseBody_snd_Skipped_isSome]
  rcases precedenceOutcome_cases c with h | h | h | h <;>
    simp [h, Success, Failure, Error, Skip]

theorem buildSuite_flaky_query (b : JUnitReportsReader) (a : Nat) (rs : surefireTestsuite) :
    (buildSuite b a rs).FlakyTestCases.2
      = (buildSuite b a rs).TestCases.filter (fun tc => tc.Status == Flaky) := by
  simp only [testSuite.FlakyTestCases, testSuite.filterTestCases, filterLoop_eq,
    List.nil_append, testSuite.TestCases]
  apply List.filter_congr
  intro tc htc
  rw [buildSuite_testcases b a rs (buildSuite b a rs), List.mem_map] at htc
  obtain ⟨c, -, rfl⟩ := htc
  rw [caseBody_snd_status_flaky]
  exact caseBody_snd_flaky a rs (buildSuite b a rs) c

theorem raw_totals_partition (l : List surefireTestsuite) :
    (l.map fun rs => rs.Testcases.length).sum
      = (l.map fun rs => rs.Testcases.countP (fun c => precedenceOutcome c == Success)).sum
        + (l.map fun rs => rs.Testcases.countP (fun c => precedenceOutcome c == Failure)).sum
        + (l.map fun rs => rs.Testcases.countP (fun c => precedenceOutcome c == Error)).sum
        + (l.map fun rs => rs.Testcases.countP (fun c => precedenceOutcome c == Skip)).sum ∧
    (l.map fun rs => rs.Testcases.countP (fun c => decide (0 < flakyRecords c))).sum
      ≤ (l.map fun rs => rs.Testcases.length).sum := by
  induction l with
  | nil => exact ⟨rfl, Nat.le_refl _⟩
  | cons rs rest ih =>
    obtain ⟨ih1, ih2⟩ := ih
    have hp := precedenceOutcome_partition rs.Testcases
    have hle : rs.Testcases.countP (fun c => decide (0 < flakyRecords c))
        ≤ rs.Testcases.length := List.countP_le_length _
    simp only [List.map_cons, List.sum_cons]
    constructor <;> omega

theorem buildSuite_without_labels (b b2 : JUnitReportsReader) (a : Nat)
    (rs : surefireTestsuite) :
    { buildSuite b a rs with labels := [] } = { buildSuite b2 a rs with labels := [] } := by
  unfold buildSuite
  cases b.labeler <;> cases b2.labeler <;> rfl

/-! ## The scenarios of the test suite, evaluated on the embedding -/

theorem scenario_nonIntersected :
    (plainReader.FromJUnitRepresentation nonIntersectedSuites).TestSuites.length = 3 ∧
    (plainReader.FromJUnitRepresentation nonIntersectedSuites).Errors = 1 ∧
    (plainReader.FromJUnitRepresentation nonIntersectedSuites).Failures = 1 ∧
    (plainReader.FromJUnitRepresentation nonIntersectedSuites).Skipped = 1 ∧
    (plainReader.FromJUnitRepresentation nonIntersectedSuites).Successes = 1 ∧
    (plainReader.FromJUnitRepresentation nonIntersectedSuites).Tests = 4 ∧
    (plainReader.FromJUnitRepresentation nonIntersectedSuites).Flakes = 0 := by
  decide

theorem scenario_flakyRuns :
    (plainReader.FromJUnitRepresentation flakyRunSuites).Tests = 1 ∧
    (plainReader.FromJUnitRepresentation flakyRunSuites).Flakes = 1 ∧
    ((plainReader.FromJUnitRepresentation flakyRunSuites).TestSuites.map fun s =>
      s.SuccessfulTestCases.2.map fun tc => tc.Name) = [["FlakyTest-1"]] ∧
    ((plainReader.FromJUnitRepresentation flakyRunSuites).TestSuites.map fun s =>
      s.SuccessfulTestCases.2.map fun tc => tc.Status) = [[Flaky]] ∧
    ((plainReader.FromJUnitRepresentation flakyRunSuites).TestSuites.map fun s =>
      s.SuccessfulTestCases.2.map fun tc =>
        [tc.AmountRerunErrors, tc.AmountRerunFailures, tc.AmountFlakyErrors,
          tc.AmountFlakyFailures]) = [[[2, 2, 2, 2]]] := by
  decide

/-! ## Classification of a test case -/

/-- C1: a raw case without flaky-error and flaky-failure records is converted
into a test case whose Status is chosen by first match: Skipped if a skip
marker is present, else Failure if a failure problem is present, else Error
if an error problem is present, else Success.  In particular a case with a
skip marker and a failure problem yields Skipped. -/
theorem status_precedence_without_flaky (b : JUnitReportsReader) (l : List surefireTestsuite)
    (i j : Nat) (c : surefireTestcase) (hraw : rawCase? l i j = some c)
    (hfe : records c.FlakyError = []) (hff : records c.FlakyFailure = []) :
    ∃ tc, producedCase? b l i j = some tc ∧
      tc.Status = (if c.Skipped.isSome then Skip else if c.Failure.isSome then Failure
        else if c.Error.isSome then Error else Success) ∧
      (c.Skipped.isSome → c.Failure.isSome → tc.Status = Skip) := by
  obtain ⟨rs, -, hp⟩ := producedCase?_of_raw b l i j c hraw
  refine ⟨_, hp (buildSuite b i rs), ?_, ?_⟩
  · unfold caseBody
    simp only [amountOf_eq, hfe, hff]
    cases c.Skipped <;> cases c.Failure <;> cases c.Error <;> rfl
  · unfold caseBody
    simp only [amountOf_eq, hfe, hff]
    cases c.Skipped <;> cases c.Failure <;> cases c.Error <;> simp [optionalTestProblem]

/-- C2: the payload of the produced test case follows the precedence: with a
skip marker, Skipped carries the skip message and there is no Issue; else
with a failure problem, Issue is the message and detail of the failure and
there is no Skipped; else with an error problem, Issue is the message and
detail of the error and there is no Skipped; else both are absent. -/
theorem payload_precedence (b : JUnitReportsReader) (l : List surefireTestsuite)
    (i j : Nat) (c : surefireTestcase) (hraw : rawCase? l i j = some c) :
    ∃ tc, producedCase? b l i j = some tc ∧
      (∀ s, c.Skipped = some s →
        tc.Skipped = some { Message := s.Message } ∧ tc.Issue = none) ∧
      (∀ f, c.Skipped = none → c.Failure = some f →
        tc.Issue = some { Message := f.Message, Detail := f.Data } ∧ tc.Skipped = none) ∧
      (∀ e, c.Skipped = none → c.Failure = none → c.Error = some e →
        tc.Issue = some { Message := e.Message, Detail := e.Data } ∧ tc.Skipped = none) ∧
      (c.Skipped = none → c.Failure = none → c.Error = none →
        tc.Issue = none ∧ tc.Skipped = none) := by
  obtain ⟨rs, -, hp⟩ := producedCase?_of_raw b l i j c hraw
  refine ⟨_, hp (buildSuite b i rs), ?_, ?_, ?_, ?_⟩
  · intro s hs
    simp [caseBody, hs]
  · intro f hs hf
    simp [caseBody, hs, hf, optionalTestProblem]
  · intro e hs hf he
    simp [caseBody, hs, hf, he, optionalTestProblem]
  · intro hs hf he
    simp [caseBody, hs, hf, he, optionalTestProblem]

/-- C3: the produced test case has Status Flaky if and only if the combined
number of flaky-error and flaky-failure records of the raw case is greater
than zero, whatever skip marker, failure problem or error problem it has. -/
theorem status_flaky_iff (b : JUnitReportsReader) (l : List surefireTestsuite)
    (i j : Nat) (c : surefireTestcase) (hraw : rawCase? l i j = some c) :
    ∃ tc, producedCase? b l i j = some tc ∧
      (tc.Status = Flaky ↔
        0 < (records c.FlakyError).length + (records c.FlakyFailure).length) := by
  obtain ⟨rs, -, hp⟩ := producedCase?_of_raw b l i j c hraw
  refine ⟨_, hp (buildSuite b i rs), ?_⟩
  unfold caseBody
  simp only [amountOf_eq]
  by_cases h : 0 < (records c.FlakyError).length + (records c.FlakyFailure).length
  · simp [h]
  · cases c.Skipped <;> cases c.Failure <;> cases c.Error <;>
      simp [h, optionalTestProblem, Flaky, Skip, Failure, Error, Success]

/-- C4: the Issue and Skipped payload of the produced test case do not depend
on the flaky-error and flaky-failure records: a raw case and the same raw
case with other flaky records, in particular with none, give the same
payload. -/
theorem payload_independent_of_flaky (b b2 : JUnitReportsReader)
    (l l2 : List surefireTestsuite) (i j i2 j2 : Nat) (c : surefireTestcase)
    (fe ff : Option (List surefireRerun)) (hraw : rawCase? l i j = some c)
    (hraw2 : rawCase? l2 i2 j2 = some { c with FlakyError := fe, FlakyFailure := ff }) :
    ∃ tc tc2, producedCase? b l i j = some tc ∧ producedCase? b2 l2 i2 j2 = some tc2 ∧
      tc.Issue = tc2.Issue ∧ tc.Skipped = tc2.Skipped := by
  obtain ⟨rs, -, hp⟩ := producedCase?_of_raw b l i j c hraw
  obtain ⟨rs2, -, hp2⟩ := producedCase?_of_raw b2 l2 i2 j2 _ hraw2
  refine ⟨_, _, hp (buildSuite b i rs), hp2 (buildSuite b2 i2 rs2), ?_, ?_⟩ <;>
  · unfold caseBody
    cases c.Skipped <;> cases c.Failure <;> cases c.Error <;> rfl


theorem status_precedence_without_flaky_witness :
    rawCase? [sampleSuite "S" [skippedFailingCase]] 0 0 = some skippedFailingCase ∧
    records skippedFailingCase.FlakyError = [] ∧
    records skippedFailingCase.FlakyFailure = [] ∧
    ∃ tc, producedCase? plainReader [sampleSuite "S" [skippedFailingCase]] 0 0 = some tc ∧
      tc.Status = Skip := by
  obtain ⟨tc, h, -, h3⟩ := status_precedence_without_flaky plainReader
    [sampleSuite "S" [skippedFailingCase]] 0 0 skippedFailingCase rfl rfl rfl
  exact ⟨rfl, rfl, rfl, tc, h, h3 rfl rfl⟩

theorem payload_precedence_witness :
    rawCase? [sampleSuite "S" [failingErroringCase]] 0 0 = some failingErroringCase ∧
    ∃ tc, producedCase? plainReader [sampleSuite "S" [failingErroringCase]] 0 0 = some tc ∧
      tc.Issue = some { Message := "Failure-1", Detail := "Failure-1-Data" } ∧
      tc.Skipped = none := by
  obtain ⟨tc, h, -, h2, -⟩ := payload_precedence plainReader
    [sampleSuite "S" [failingErroringCase]] 0 0 failingErroringCase rfl
  exact ⟨rfl, tc, h, h2 _ rfl rfl⟩

theorem status_flaky_iff_witness :
    rawCase? [sampleSuite "S" [flakyFailingCase]] 0 0 = some flakyFailingCase ∧
    ∃ tc, producedCase? plainReader [sampleSuite "S" [flakyFailingCase]] 0 0 = some tc ∧
      tc.Status = Flaky := by
  obtain ⟨tc, h, h2⟩ := status_flaky_iff plainReader
    [sampleSuite "S" [flakyFailingCase]] 0 0 flakyFailingCase rfl
  exact ⟨rfl, tc, h, h2.2 (by decide)⟩

theorem payload_independent_of_flaky_witness :
    rawCase? [sampleSuite "S" [flakyFailingCase]] 0 0 = some flakyFailingCase ∧
    rawCase? [sampleSuite "T" [plainCase "X", { flakyFailingCase with
      FlakyError := none, FlakyFailure := none }]] 0 1
      = some { flakyFailingCase with FlakyError := none, FlakyFailure := none } ∧
    ∃ tc tc2,
      producedCase? plainReader [sampleSuite "S" [flakyFailingCase]] 0 0 = some tc ∧
      producedCase? plainReader [sampleSuite "T" [plainCase "X", { flakyFailingCase with
        FlakyError := none, FlakyFailure := none }]] 0 1 = some tc2 ∧
      tc.Issue = tc2.Issue ∧ tc.Skipped = tc2.Skipped :=
  ⟨rfl, rfl, payload_independent_of_flaky plainReader plainReader
    [sampleSuite "S" [flakyFailingCase]] _ 0 0 0 1 flakyFailingCase none none rfl rfl⟩


/-! ## Counters of a suite and totals of the results -/

/-- C5: in every suite produced by FromJUnitRepresentation each processed case
incremented exactly one bucket, so Success() + Failure() + Error() +
Skipped() equals the length of TestCases(). -/
theorem suite_counters_sum_eq_length (b : JUnitReportsReader) (l : List surefireTestsuite)
    (s : testSuite) (hs : s ∈ (b.FromJUnitRepresentation l).TestSuites) :
    s.Success + s.Failure + s.Error + s.Skipped = s.TestCases.length := by
  obtain ⟨a, rs, -, rfl⟩ := mem_TestSuites b l s hs
  obtain ⟨h1, h2, h3, h4⟩ := buildSuite_counters b a rs
  simp only [testSuite.Success, testSuite.Failure, testSuite.Error, testSuite.Skipped,
    testSuite.TestCases, h1, h2, h3, h4, buildSuite_testcases b a rs (buildSuite b a rs),
    List.length_map]
  exact precedenceOutcome_partition rs.Testcases


theorem suite_counters_sum_eq_length_witness :
    buildSuite plainReader 0 (sampleSuite "S" [flakyFailingCase, skippedFailingCase])
      ∈ (plainReader.FromJUnitRepresentation
          [sampleSuite "S" [flakyFailingCase, skippedFailingCase]]).TestSuites ∧
    (buildSuite plainReader 0 (sampleSuite "S" [flakyFailingCase, skippedFailingCase])).Success
      + (buildSuite plainReader 0
          (sampleSuite "S" [flakyFailingCase, skippedFailingCase])).Failure
      + (buildSuite plainReader 0 (sampleSuite "S" [flakyFailingCase, skippedFailingCase])).Error
      + (buildSuite plainReader 0
          (sampleSuite "S" [flakyFailingCase, skippedFailingCase])).Skipped
      = (buildSuite plainReader 0
          (sampleSuite "S" [flakyFailingCase, skippedFailingCase])).TestCases.length :=
  ⟨by decide, suite_counters_sum_eq_length plainReader
    [sampleSuite "S" [flakyFailingCase, skippedFailingCase]] _ (by decide)⟩

/-- C6: the totals of the Results returned by FromJUnitRepresentation are sums
over its suites: Tests() of the lengths of TestCases(), Successes(),
Failures(), Errors() and Skipped() of the counters Success(), Failure(),
Error() and Skipped(), and Flakes() of the lengths of FlakyTestCases(). -/
theorem results_totals_are_sums (b : JUnitReportsReader) (l : List surefireTestsuite) :
    (b.FromJUnitRepresentation l).Tests
      = ((b.FromJUnitRepresentation l).TestSuites.map fun s => s.TestCases.length).sum ∧
    (b.FromJUnitRepresentation l).Successes
      = ((b.FromJUnitRepresentation l).TestSuites.map fun s => s.Success).sum ∧
    (b.FromJUnitRepresentation l).Failures
      = ((b.FromJUnitRepresentation l).TestSuites.map fun s => s.Failure).sum ∧
    (b.FromJUnitRepresentation l).Errors
      = ((b.FromJUnitRepresentation l).TestSuites.map fun s => s.Error).sum ∧
    (b.FromJUnitRepresentation l).Skipped
      = ((b.FromJUnitRepresentation l).TestSuites.map fun s => s.Skipped).sum ∧
    (b.FromJUnitRepresentation l).Flakes
      = ((b.FromJUnitRepresentation l).TestSuites.map fun s =>
          s.FlakyTestCases.2.length).sum := by
  have h := foldl_suiteStep_TotalsAreSums b l
    { tests := 0, successes := 0, failures := 0, errors := 0, skipped := 0, flakes := 0,
      suites := [] }
    (by simp [TotalsAreSums, testResults.Tests, testResults.Successes, testResults.Failures,
      testResults.Errors, testResults.Skipped, testResults.Flakes, testResults.TestSuites])
  exact h


/-- C7, as stated, fails: the suite built from one raw case without markers
and with one flaky-error record reports Success() = 1 although no case of
it has Status Success (the only case has Status Flaky). -/
theorem counters_match_status_counterexample :
    ¬ ∀ s ∈ (plainReader.FromJUnitRepresentation
        [sampleSuite "S" [flakyPassingCase]]).TestSuites,
      s.Success = s.TestCases.countP (fun tc => tc.Status == Success) ∧
      s.Failure = s.TestCases.countP (fun tc => tc.Status == Failure) ∧
      s.Error = s.TestCases.countP (fun tc => tc.Status == Error) ∧
      s.Skipped = s.TestCases.countP (fun tc => tc.Status == Skip) := by
  decide

/-- C7, amended: in the suite produced for a raw suite each per-status counter
equals the number of raw cases whose outcome by the precedence of steps 1 to
4, before the flaky override, matches it; when no case of the suite has
Status Flaky, this is the number of cases whose Status matches it. -/
theorem counters_match_precedence_outcome (b : JUnitReportsReader)
    (l : List surefireTestsuite) (i : Nat) (rs : surefireTestsuite) (s : testSuite)
    (hraw : l[i]? = some rs) (hs : (b.FromJUnitRepresentation l).TestSuites[i]? = some s) :
    (s.Success = rs.Testcases.countP (fun c => precedenceOutcome c == Success) ∧
      s.Failure = rs.Testcases.countP (fun c => precedenceOutcome c == Failure) ∧
      s.Error = rs.Testcases.countP (fun c => precedenceOutcome c == Error) ∧
      s.Skipped = rs.Testcases.countP (fun c => precedenceOutcome c == Skip)) ∧
    ((∀ tc ∈ s.TestCases, tc.Status ≠ Flaky) →
      s.Success = s.TestCases.countP (fun tc => tc.Status == Success) ∧
      s.Failure = s.TestCases.countP (fun tc => tc.Status == Failure) ∧
      s.Error = s.TestCases.countP (fun tc => tc.Status == Error) ∧
      s.Skipped = s.TestCases.countP (fun tc => tc.Status == Skip)) := by
  rw [TestSuites_getElem?, hraw] at hs
  simp only [Option.map_some', Option.some.injEq] at hs
  subst hs
  obtain ⟨h1, h2, h3, h4⟩ := buildSuite_counters b i rs
  refine ⟨⟨h1, h2, h3, h4⟩, fun hno => ?_⟩
  have hst : ∀ c ∈ rs.Testcases,
      (caseBody i rs (buildSuite b i rs) c).2.Status = precedenceOutcome c := by
    intro c hc
    have hne := hno (caseBody i rs (buildSuite b i rs) c).2 (by
      rw [testSuite.TestCases, buildSuite_testcases b i rs (buildSuite b i rs)]
      exact List.mem_map_of_mem _ hc)
    rw [caseBody_snd_Status] at hne ⊢
    split
    · rename_i hpos
      simp [hpos] at hne
    · rfl
  have key : ∀ st : Status,
      (buildSuite b i rs).TestCases.countP (fun tc => tc.Status == st)
        = rs.Testcases.countP (fun c => precedenceOutcome c == st) := by
    intro st
    rw [testSuite.TestCases, buildSuite_testcases b i rs (buildSuite b i rs), List.countP_map]
    apply List.countP_congr
    intro c hc
    simp [hst c hc]
  simp only [testSuite.Success, testSuite.Failure, testSuite.Error, testSuite.Skipped, key,
    h1, h2, h3, h4, and_self]

theorem counters_match_precedence_outcome_witness :
    [sampleSuite "S" [flakyPassingCase, plainCase "T"]][0]?
      = some (sampleSuite "S" [flakyPassingCase, plainCase "T"]) ∧
    (plainReader.FromJUnitRepresentation
        [sampleSuite "S" [flakyPassingCase, plainCase "T"]]).TestSuites[0]?
      = some (buildSuite plainReader 0 (sampleSuite "S" [flakyPassingCase, plainCase "T"])) ∧
    (buildSuite plainReader 0 (sampleSuite "S" [flakyPassingCase, plainCase "T"])).Success
      = [flakyPassingCase, plainCase "T"].countP
          (fun c => precedenceOutcome c == Success) :=
  ⟨rfl, by decide, (counters_match_precedence_outcome plainReader
    [sampleSuite "S" [flakyPassingCase, plainCase "T"]] 0 _ _ rfl (by decide)).1.1⟩

/-- C8: a raw case without skip marker, failure problem and error problem
but with at least one flaky-error or flaky-failure record gives a case with
Status Flaky that is returned by SuccessfulTestCases() and by
FlakyTestCases(); compared with the same input without that raw case, it
adds one to the Success counter of its suite, nothing to the other
counters of the suite, and one to Flakes() of the results. -/
theorem flaky_passing_case_counts_as_success (b : JUnitReportsReader)
    (pre post : List surefireTestsuite) (rs : surefireTestsuite)
    (cpre cpost : List surefireTestcase) (c : surefireTestcase)
    (hskip : c.Skipped = none) (hfail : c.Failure = none) (herr : c.Error = none)
    (hflaky : 0 < (records c.FlakyError).length + (records c.FlakyFailure).length) :
    ∃ s s2 tc,
      (b.FromJUnitRepresentation
        (pre ++ { rs with Testcases := cpre ++ c :: cpost } :: post)).TestSuites[pre.length]?
        = some s ∧
      s.TestCases[cpre.length]? = some tc ∧
      (b.FromJUnitRepresentation
        (pre ++ { rs with Testcases := cpre ++ cpost } :: post)).TestSuites[pre.length]?
        = some s2 ∧
      tc.Status = Flaky ∧
      tc ∈ s.SuccessfulTestCases.2 ∧
      tc ∈ s.FlakyTestCases.2 ∧
      s.Success = s2.Success + 1 ∧
      s.Failure = s2.Failure ∧
      s.Error = s2.Error ∧
      s.Skipped = s2.Skipped ∧
      (b.FromJUnitRepresentation
        (pre ++ { rs with Testcases := cpre ++ c :: cpost } :: post)).Flakes
        = (b.FromJUnitRepresentation
            (pre ++ { rs with Testcases := cpre ++ cpost } :: post)).Flakes + 1 := by
  have hout : precedenceOutcome c = Success := by
    simp [precedenceOutcome, hskip, hfail, herr]
  have hpos : 0 < flakyRecords c := hflaky
  let rs1 : surefireTestsuite := { rs with Testcases := cpre ++ c :: cpost }
  let rs2 : surefireTestsuite := { rs with Testcases := cpre ++ cpost }
  let s := buildSuite b pre.length rs1
  let tc := (caseBody pre.length rs1 s c).2
  have hmem : tc ∈ s.testcases := by
    show tc ∈ (buildSuite b pre.length rs1).testcases
    rw [buildSuite_testcases b pre.length rs1 s]
    exact List.mem_map_of_mem _ (by simp [rs1])
  obtain ⟨h1, h2, h3, h4⟩ := buildSuite_counters b pre.length rs1
  obtain ⟨k1, k2, k3, k4⟩ := buildSuite_counters b pre.length rs2
  refine ⟨s, buildSuite b pre.length rs2, tc, ?_, ?_, ?_, ?_, ?_, ?_, ?_, ?_, ?_, ?_, ?_⟩
  · rw [TestSuites_getElem?, getElem?_mid]
    rfl
  · show (buildSuite b pre.length rs1).testcases[cpre.length]? = some tc
    rw [buildSuite_testcases b pre.length rs1 s]
    have h := getElem?_mid (cpre.map fun c => (caseBody pre.length rs1 s c).2)
      (cpost.map fun c => (caseBody pre.length rs1 s c).2) tc
    rw [List.length_map] at h
    simpa [rs1] using h
  · rw [TestSuites_getElem?, getElem?_mid]
    rfl
  · show (caseBody pre.length rs1 s c).2.Status = Flaky
    rw [caseBody_snd_Status, if_pos hpos]
  · simp only [testSuite.SuccessfulTestCases, testSuite.filterTestCases, filterLoop_eq,
      List.nil_append, List.mem_filter]
    refine ⟨hmem, ?_⟩
    have hi := caseBody_snd_Issue_isSome pre.length rs1 s c
    have hk := caseBody_snd_Skipped_isSome pre.length rs1 s c
    rw [hout] at hi hk
    have hi2 : tc.Issue.isSome = false := by rw [hi]; decide
    have hk2 : tc.Skipped.isSome = false := by rw [hk]; decide
    simp [Option.isNone_iff_eq_none, Option.not_isSome_iff_eq_none.mp
      (by simp [hi2] : ¬ tc.Issue.isSome = true),
      Option.not_isSome_iff_eq_none.mp (by simp [hk2] : ¬ tc.Skipped.isSome = true)]
  · simp only [testSuite.FlakyTestCases, testSuite.filterTestCases, filterLoop_eq,
      List.nil_append, List.mem_filter]
    refine ⟨hmem, ?_⟩
    have hf := caseBody_snd_flaky pre.length rs1 s c
    rw [hf]
    simpa using hpos
  · simp only [testSuite.Success, s, h1, k1, rs1, rs2, List.countP_append, List.countP_cons,
      hout]
    simp
    omega
  · simp only [testSuite.Failure, s, h2, k2, rs1, rs2, List.countP_append, List.countP_cons,
      hout]
    simp [Success, Failure]
  · simp only [testSuite.Error, s, h3, k3, rs1, rs2, List.countP_append, List.countP_cons,
      hout]
    simp [Success, Error]
  · simp only [testSuite.Skipped, s, h4, k4, rs1, rs2, List.countP_append, List.countP_cons,
      hout]
    simp [Success, Skip]
  · rw [FromJUnitRepresentation_flakes, FromJUnitRepresentation_flakes]
    simp only [List.map_append, List.map_cons, List.sum_append, List.sum_cons,
      List.countP_append, List.countP_cons]
    simp [hpos]
    omega

theorem flaky_passing_case_counts_as_success_witness :
    flakyPassingCase.Skipped = none ∧ flakyPassingCase.Failure = none ∧
    flakyPassingCase.Error = none ∧
    0 < (records flakyPassingCase.FlakyError).length
      + (records flakyPassingCase.FlakyFailure).length ∧
    (plainReader.FromJUnitRepresentation
        [sampleSuite "S" [plainCase "A", flakyPassingCase]]).Flakes
      = (plainReader.FromJUnitRepresentation [sampleSuite "S" [plainCase "A"]]).Flakes + 1 := by
  obtain ⟨s, s2, tc, -, -, -, -, -, -, -, -, -, -, h⟩ :=
    flaky_passing_case_counts_as_success plainReader [] [] (sampleSuite "S" [])
      [plainCase "A"] [] flakyPassingCase rfl rfl rfl (by decide)
  exact ⟨rfl, rfl, rfl, by decide, h⟩

/-- C9, as stated, fails: the suite built from one raw case with a failure
problem and one flaky-failure record reports Failure() = 1 although no case
of it has Status Failure, Error or Skipped: the Flaky case was bucketed into
Failure, not into Success. -/
theorem flaky_bucketed_into_success_counterexample :
    ¬ ∀ s ∈ (plainReader.FromJUnitRepresentation
        [sampleSuite "S" [flakyFailingCase]]).TestSuites,
      s.Failure + s.Error + s.Skipped
        = s.TestCases.countP (fun tc =>
            tc.Status == Failure || tc.Status == Error || tc.Status == Skip) := by
  decide


/-- C9, amended: in every suite produced by FromJUnitRepresentation a Flaky
case stays in the bucket of its outcome before the override, so Failure() +
Error() + Skipped() equals the number of cases whose Status is Failure,
Error or Skipped plus the number of Flaky cases that carry an Issue or a
Skipped marker; when no Flaky case carries such a payload, it equals the
number of cases whose Status is Failure, Error or Skipped. -/
theorem non_success_counters_count (b : JUnitReportsReader) (l : List surefireTestsuite)
    (s : testSuite) (hs : s ∈ (b.FromJUnitRepresentation l).TestSuites) :
    s.Failure + s.Error + s.Skipped
      = s.TestCases.countP (fun tc =>
          tc.Status == Failure || tc.Status == Error || tc.Status == Skip)
        + s.TestCases.countP (fun tc =>
          tc.Status == Flaky && (tc.Issue.isSome || tc.Skipped.isSome)) ∧
    ((∀ tc ∈ s.TestCases, tc.Status = Flaky → tc.Issue = none ∧ tc.Skipped = none) →
      s.Failure + s.Error + s.Skipped
        = s.TestCases.countP (fun tc =>
            tc.Status == Failure || tc.Status == Error || tc.Status == Skip)) := by
  obtain ⟨a, rs, -, rfl⟩ := mem_TestSuites b l s hs
  obtain ⟨-, h2, h3, h4⟩ := buildSuite_counters b a rs
  have hsum := payload_count_list a rs (buildSuite b a rs) rs.Testcases
  rw [← buildSuite_testcases b a rs (buildSuite b a rs)] at hsum
  simp only [testSuite.Failure, testSuite.Error, testSuite.Skipped, testSuite.TestCases,
    h2, h3, h4]
  refine ⟨hsum, fun hno => ?_⟩
  have hzero : (buildSuite b a rs).testcases.countP (fun tc =>
      tc.Status == Flaky && (tc.Issue.isSome || tc.Skipped.isSome)) = 0 := by
    rw [List.countP_eq_zero]
    intro tc htc
    by_cases hf : tc.Status = Flaky
    · obtain ⟨hi, hk⟩ := hno tc htc hf
      simp [hi, hk]
    · simp [hf]
  omega

theorem non_success_counters_count_witness :
    buildSuite plainReader 0 (sampleSuite "S" [flakyFailingCase, skippedFailingCase])
      ∈ (plainReader.FromJUnitRepresentation
          [sampleSuite "S" [flakyFailingCase, skippedFailingCase]]).TestSuites ∧
    (buildSuite plainReader 0
        (sampleSuite "S" [flakyFailingCase, skippedFailingCase])).Failure
      + (buildSuite plainReader 0 (sampleSuite "S" [flakyFailingCase, skippedFailingCase])).Error
      + (buildSuite plainReader 0
        (sampleSuite "S" [flakyFailingCase, skippedFailingCase])).Skipped
      = (buildSuite plainReader 0
          (sampleSuite "S" [flakyFailingCase, skippedFailingCase])).TestCases.countP (fun tc =>
            tc.Status == Failure || tc.Status == Error || tc.Status == Skip)
        + (buildSuite plainReader 0
          (sampleSuite "S" [flakyFailingCase, skippedFailingCase])).TestCases.countP (fun tc =>
            tc.Status == Flaky && (tc.Issue.isSome || tc.Skipped.isSome)) :=
  ⟨by decide, (non_success_counters_count plainReader
    [sampleSuite "S" [flakyFailingCase, skippedFailingCase]] _ (by decide)).1⟩


/-! ## Queries of a suite -/

/-- C10: each query of a suite returns exactly the sub-sequence of TestCases(),
in the original order, that its predicate selects: NonSuccessfulTestCases
the cases with an Issue, SuccessfulTestCases the cases with neither an Issue
nor a Skipped marker, SkippedTestCases the cases with a Skipped marker,
FlakyTestCases the cases with AmountFlakyErrors != 0 or AmountFlakyFailures
!= 0; and after the call the case list of the suite is what it was. -/
theorem queries_are_order_preserving_filters (t : testSuite) :
    (t.NonSuccessfulTestCases.2
        = t.TestCases.filter (fun tc => decide (tc.Issue ≠ none)) ∧
      t.SuccessfulTestCases.2
        = t.TestCases.filter (fun tc => decide (tc.Issue = none ∧ tc.Skipped = none)) ∧
      t.SkippedTestCases.2
        = t.TestCases.filter (fun tc => decide (tc.Skipped ≠ none)) ∧
      t.FlakyTestCases.2
        = t.TestCases.filter (fun tc =>
            decide (tc.AmountFlakyErrors ≠ 0 ∨ tc.AmountFlakyFailures ≠ 0))) ∧
    (t.NonSuccessfulTestCases.2.Sublist t.TestCases ∧
      t.SuccessfulTestCases.2.Sublist t.TestCases ∧
      t.SkippedTestCases.2.Sublist t.TestCases ∧
      t.FlakyTestCases.2.Sublist t.TestCases) ∧
    (t.NonSuccessfulTestCases.1.TestCases = t.TestCases ∧
      t.SuccessfulTestCases.1.TestCases = t.TestCases ∧
      t.SkippedTestCases.1.TestCases = t.TestCases ∧
      t.FlakyTestCases.1.TestCases = t.TestCases) := by
  refine ⟨⟨?_, ?_, ?_, ?_⟩, ⟨?_, ?_, ?_, ?_⟩, ⟨rfl, rfl, rfl, rfl⟩⟩
  · simp only [testSuite.NonSuccessfulTestCases, testSuite.filterTestCases, filterLoop_eq,
      testSuite.TestCases, List.nil_append]
    congr 1
    funext tc
    cases tc.Issue <;> simp
  · simp only [testSuite.SuccessfulTestCases, testSuite.filterTestCases, filterLoop_eq,
      testSuite.TestCases, List.nil_append]
    congr 1
    funext tc
    cases tc.Issue <;> cases tc.Skipped <;> simp
  · simp only [testSuite.SkippedTestCases, testSuite.filterTestCases, filterLoop_eq,
      testSuite.TestCases, List.nil_append]
    congr 1
    funext tc
    cases tc.Skipped <;> simp
  · simp only [testSuite.FlakyTestCases, testSuite.filterTestCases, filterLoop_eq,
      testSuite.TestCases, List.nil_append]
    congr 1
    funext tc
    cases tc.AmountFlakyErrors <;> cases tc.AmountFlakyFailures <;> simp
  · simp only [testSuite.NonSuccessfulTestCases, testSuite.filterTestCases, filterLoop_eq,
      testSuite.TestCases, List.nil_append]
    exact List.filter_sublist _
  · simp only [testSuite.SuccessfulTestCases, testSuite.filterTestCases, filterLoop_eq,
      testSuite.TestCases, List.nil_append]
    exact List.filter_sublist _
  · simp only [testSuite.SkippedTestCases, testSuite.filterTestCases, filterLoop_eq,
      testSuite.TestCases, List.nil_append]
    exact List.filter_sublist _
  · simp only [testSuite.FlakyTestCases, testSuite.filterTestCases, filterLoop_eq,
      testSuite.TestCases, List.nil_append]
    exact List.filter_sublist _


/-! ## Labels, back-references and copied fields -/

/-- C11: with a labeler configured, Labels() of a finished suite is exactly
the list that the labeler returns for that suite with all of its cases and
counters set and no labels yet; without a labeler, Labels() is empty. -/
theorem labels_are_labeler_result (b : JUnitReportsReader) (l : List surefireTestsuite)
    (s : testSuite) (hs : s ∈ (b.FromJUnitRepresentation l).TestSuites) :
    (∀ f, b.labeler = some f → s.Labels = f { s with labels := [] }) ∧
    (b.labeler = none → s.Labels = []) := by
  obtain ⟨a, rs, -, rfl⟩ := mem_TestSuites b l s hs
  exact buildSuite_labels b a rs

theorem labels_are_labeler_result_witness :
    buildSuite xyReader 0 (sampleSuite "S" [plainCase "Test-3"])
      ∈ (xyReader.FromJUnitRepresentation [sampleSuite "S" [plainCase "Test-3"]]).TestSuites ∧
    (buildSuite xyReader 0 (sampleSuite "S" [plainCase "Test-3"])).Labels = ["x", "y"] ∧
    buildSuite plainReader 0 (sampleSuite "S" [plainCase "Test-3"])
      ∈ (plainReader.FromJUnitRepresentation
          [sampleSuite "S" [plainCase "Test-3"]]).TestSuites ∧
    (buildSuite plainReader 0 (sampleSuite "S" [plainCase "Test-3"])).Labels = [] :=
  ⟨by decide,
    (labels_are_labeler_result xyReader [sampleSuite "S" [plainCase "Test-3"]] _
      (by decide)).1 xyLabeler rfl,
    by decide,
    (labels_are_labeler_result plainReader [sampleSuite "S" [plainCase "Test-3"]] _
      (by decide)).2 rfl⟩

/-- C16: in the results of FromJUnitRepresentation the back-reference of every
test case of a suite points to that suite: the referenced suite object is
the containing suite itself, so it has its Name() and exposes its finished
counters and case list. -/
theorem back_reference_is_owning_suite (b : JUnitReportsReader) (l : List surefireTestsuite)
    (i : Nat) (s : testSuite) (tc : TestCase)
    (hs : (b.FromJUnitRepresentation l).TestSuites[i]? = some s) (htc : tc ∈ s.TestCases) :
    ∃ owner, (b.FromJUnitRepresentation l).deref tc.Suite = some owner ∧
      owner = s ∧ owner.Name = s.Name ∧ owner.TestCases = s.TestCases ∧
      owner.Success = s.Success ∧ owner.Failure = s.Failure ∧ owner.Error = s.Error ∧
      owner.Skipped = s.Skipped := by
  have hs2 := hs
  rw [TestSuites_getElem?] at hs2
  cases hl : l[i]? with
  | none => simp [hl] at hs2
  | some rs =>
    simp only [hl, Option.map_some', Option.some.injEq] at hs2
    have hsuite : tc.Suite = i := by
      rw [← hs2, testSuite.TestCases, buildSuite_testcases b i rs (buildSuite b i rs),
        List.mem_map] at htc
      obtain ⟨c, -, rfl⟩ := htc
      exact (caseBody_snd_copied i rs (buildSuite b i rs) c).2.2.2.1
    refine ⟨s, ?_, rfl, rfl, rfl, rfl, rfl, rfl, rfl⟩
    rw [hsuite]
    exact hs

theorem back_reference_is_owning_suite_witness :
    (plainReader.FromJUnitRepresentation
        [sampleSuite "S" [plainCase "A"], sampleSuite "T" [rerunCase]]).TestSuites[1]?
      = some (buildSuite plainReader 1 (sampleSuite "T" [rerunCase])) ∧
    (caseBody 1 (sampleSuite "T" [rerunCase])
        (buildSuite plainReader 1 (sampleSuite "T" [rerunCase])) rerunCase).2
      ∈ (buildSuite plainReader 1 (sampleSuite "T" [rerunCase])).TestCases ∧
    ∃ owner, (plainReader.FromJUnitRepresentation
        [sampleSuite "S" [plainCase "A"], sampleSuite "T" [rerunCase]]).deref 1 = some owner ∧
      owner.Name = "T" := by
  obtain ⟨owner, h1, -, h3, -⟩ := back_reference_is_owning_suite plainReader
    [sampleSuite "S" [plainCase "A"], sampleSuite "T" [rerunCase]] 1
    (buildSuite plainReader 1 (sampleSuite "T" [rerunCase]))
    (caseBody 1 (sampleSuite "T" [rerunCase])
      (buildSuite plainReader 1 (sampleSuite "T" [rerunCase])) rerunCase).2
    (by decide) (by decide)
  exact ⟨by decide, by decide, owner, h1, h3⟩

/-- C17: for every raw test case each of the four rerun and flaky collections
of the produced test case is a verbatim copy: the cached Amount equals the
number of raw records of that kind and the length of the produced
collection, the i-th produced RerunIssue has the message, stack trace,
system-out and system-err of the i-th raw record, and an absent or empty raw
collection gives count 0 and an absent collection. -/
theorem rerun_collections_copied (b : JUnitReportsReader) (l : List surefireTestsuite)
    (i j : Nat) (c : surefireTestcase) (hraw : rawCase? l i j = some c) :
    ∃ tc, producedCase? b l i j = some tc ∧
      CopiedVerbatim c.ReRunErrors tc.RerunErrors tc.AmountRerunErrors ∧
      CopiedVerbatim c.ReRunFailures tc.RerunFailures tc.AmountRerunFailures ∧
      CopiedVerbatim c.FlakyError tc.FlakyErrors tc.AmountFlakyErrors ∧
      CopiedVerbatim c.FlakyFailure tc.FlakyFailures tc.AmountFlakyFailures := by
  obtain ⟨rs, -, hp⟩ := producedCase?_of_raw b l i j c hraw
  obtain ⟨⟨a1, a2⟩, ⟨b1, b2⟩, ⟨c1, c2⟩, ⟨d1, d2⟩⟩ :=
    caseBody_snd_reruns i rs (buildSuite b i rs) c
  refine ⟨_, hp (buildSuite b i rs), ?_, ?_, ?_, ?_⟩
  · rw [a1, a2]; exact toReRunIssues_copied _
  · rw [b1, b2]; exact toReRunIssues_copied _
  · rw [c1, c2]; exact toReRunIssues_copied _
  · rw [d1, d2]; exact toReRunIssues_copied _

theorem rerun_collections_copied_witness :
    rawCase? [sampleSuite "S" [rerunCase]] 0 0 = some rerunCase ∧
    ∃ tc, producedCase? plainReader [sampleSuite "S" [rerunCase]] 0 0 = some tc ∧
      tc.AmountRerunErrors = 2 ∧ (issues tc.RerunErrors).length = 2 ∧
      tc.AmountFlakyFailures = 0 ∧ tc.FlakyFailures = none ∧
      tc.AmountFlakyErrors = 0 ∧ tc.FlakyErrors = none := by
  obtain ⟨tc, h, ⟨a1, a2, -, -⟩, -, ⟨c1, -, -, c4⟩, ⟨d1, -, -, d4⟩⟩ :=
    rerun_collections_copied plainReader [sampleSuite "S" [rerunCase]] 0 0 rerunCase rfl
  exact ⟨rfl, tc, h, a1, a2 ▸ a1, (d4 rfl).1, (d4 rfl).2, (c4 rfl).1, (c4 rfl).2⟩

/-- C18: the Time field of every produced test case equals the declared
duration of its raw suite, which is what Time() of the produced suite
returns, and not the declared duration of the raw case itself. -/
theorem case_time_is_suite_time (b : JUnitReportsReader) (l : List surefireTestsuite)
    (i j : Nat) (rs : surefireTestsuite) (c : surefireTestcase)
    (hrs : l[i]? = some rs) (hc : rs.Testcases[j]? = some c) :
    ∃ s tc, (b.FromJUnitRepresentation l).TestSuites[i]? = some s ∧
      s.TestCases[j]? = some tc ∧ tc.Time = rs.Time ∧ tc.Time = s.Time ∧
      (c.Time ≠ rs.Time → tc.Time ≠ c.Time) := by
  obtain ⟨h1, h2, h3⟩ := buildSuite_meta b i rs
  have ht := (caseBody_snd_copied i rs (buildSuite b i rs) c).2.2.2.2
  refine ⟨buildSuite b i rs, (caseBody i rs (buildSuite b i rs) c).2, ?_, ?_, ht, ?_, ?_⟩
  · rw [TestSuites_getElem?, hrs]; rfl
  · rw [testSuite.TestCases, buildSuite_testcases b i rs (buildSuite b i rs),
      List.getElem?_map, hc]
    rfl
  · rw [ht, testSuite.Time, h3]
  · intro hne heq
    exact hne (heq ▸ ht)

theorem case_time_is_suite_time_witness :
    [sampleSuite "S" [rerunCase]][0]? = some (sampleSuite "S" [rerunCase]) ∧
    (sampleSuite "S" [rerunCase]).Testcases[0]? = some rerunCase ∧
    ∃ s tc, (plainReader.FromJUnitRepresentation [sampleSuite "S" [rerunCase]]).TestSuites[0]?
        = some s ∧
      s.TestCases[0]? = some tc ∧ tc.Time = ⟨1⟩ ∧ tc.Time ≠ rerunCase.Time := by
  obtain ⟨s, tc, h1, h2, h3, -, h5⟩ := case_time_is_suite_time plainReader
    [sampleSuite "S" [rerunCase]] 0 0 (sampleSuite "S" [rerunCase]) rerunCase rfl rfl
  exact ⟨rfl, rfl, s, tc, h1, h2, h3, h5 (by decide)⟩

/-- C19: within one suite the case order is preserved: TestCases() of the
produced suite has the length of the raw case list and its i-th test case
has the Name and Classname of the i-th raw case. -/
theorem case_order_preserved (b : JUnitReportsReader) (l : List surefireTestsuite)
    (i : Nat) (rs : surefireTestsuite) (hrs : l[i]? = some rs) :
    ∃ s, (b.FromJUnitRepresentation l).TestSuites[i]? = some s ∧
      s.TestCases.length = rs.Testcases.length ∧
      ∀ (j : Nat) (c : surefireTestcase), rs.Testcases[j]? = some c →
        ∃ tc : TestCase,
          s.TestCases[j]? = some tc ∧ tc.Name = c.Name ∧ tc.Classname = c.Classname := by
  refine ⟨buildSuite b i rs, ?_, ?_, ?_⟩
  · rw [TestSuites_getElem?, hrs]; rfl
  · rw [testSuite.TestCases, buildSuite_testcases b i rs (buildSuite b i rs), List.length_map]
  · intro j c hc
    obtain ⟨h1, h2, -⟩ := caseBody_snd_copied i rs (buildSuite b i rs) c
    refine ⟨(caseBody i rs (buildSuite b i rs) c).2, ?_, h1, h2⟩
    rw [testSuite.TestCases, buildSuite_testcases b i rs (buildSuite b i rs),
      List.getElem?_map, hc]
    rfl

theorem case_order_preserved_witness :
    [sampleSuite "S" [plainCase "A", rerunCase]][0]?
      = some (sampleSuite "S" [plainCase "A", rerunCase]) ∧
    ∃ s, (plainReader.FromJUnitRepresentation
          [sampleSuite "S" [plainCase "A", rerunCase]]).TestSuites[0]? = some s ∧
      s.TestCases.length = 2 ∧
      ∃ tc, s.TestCases[1]? = some tc ∧ tc.Name = "Test-5" ∧ tc.Classname = "pkg.Class" := by
  obtain ⟨s, h1, h2, h3⟩ := case_order_preserved plainReader
    [sampleSuite "S" [plainCase "A", rerunCase]] 0 _ rfl
  exact ⟨rfl, s, h1, h2, h3 1 rerunCase rfl⟩

/-- C20: FromJUnitRepresentation returns one finished suite per raw suite, in
input order: TestSuites() has the length of the input list and its i-th
suite has the Name(), Filename() and Time() of the i-th raw suite. -/
theorem one_suite_per_raw_suite (b : JUnitReportsReader) (l : List surefireTestsuite) :
    (b.FromJUnitRepresentation l).TestSuites.length = l.length ∧
    ∀ (i : Nat) (rs : surefireTestsuite), l[i]? = some rs →
      ∃ s : testSuite, (b.FromJUnitRepresentation l).TestSuites[i]? = some s ∧
        s.Name = rs.Name ∧ s.Filename = rs.Filename ∧ s.Time = rs.Time := by
  refine ⟨TestSuites_length b l, fun i rs hrs => ?_⟩
  obtain ⟨h1, h2, h3⟩ := buildSuite_meta b i rs
  refine ⟨buildSuite b i rs, ?_, h1, h2, h3⟩
  rw [TestSuites_getElem?, hrs]; rfl

theorem one_suite_per_raw_suite_witness :
    (plainReader.FromJUnitRepresentation nonIntersectedSuites).TestSuites.length = 3 ∧
    nonIntersectedSuites[1]? = some (sampleSuite "Success-Suite" [plainCase "Test-3"]) ∧
    ∃ s, (plainReader.FromJUnitRepresentation nonIntersectedSuites).TestSuites[1]? = some s ∧
      s.Name = "Success-Suite" ∧ s.Filename = "" ∧ s.Time = ⟨1⟩ :=
  ⟨(one_suite_per_raw_suite plainReader nonIntersectedSuites).1, rfl,
    (one_suite_per_raw_suite plainReader nonIntersectedSuites).2 1 _ rfl⟩


/-! ## Order of the raw suites -/

/-- C14: the totals do not depend on the order of the raw suites: for a
permutation `l2` of the list `l`, FromJUnitRepresentation gives the same
Tests(), Successes(), Failures(), Errors(), Skipped() and Flakes() and the
same number of suites, and TestSuites() is permuted in the same way:
wherever the raw suite at position i of `l2` is the raw suite at position j
of `l`, the suite at position i of the one result is the suite at position
j of the other (the back-references of its cases being the address of the
suite itself in both).  A labeler is a function of the visible state of the
suite. -/
theorem totals_order_independent (b : JUnitReportsReader) (l l2 : List surefireTestsuite)
    (hperm : l.Perm l2) (hblind : ∀ f, b.labeler = some f → AddressBlind f) :
    ((b.FromJUnitRepresentation l2).Tests = (b.FromJUnitRepresentation l).Tests ∧
      (b.FromJUnitRepresentation l2).Successes = (b.FromJUnitRepresentation l).Successes ∧
      (b.FromJUnitRepresentation l2).Failures = (b.FromJUnitRepresentation l).Failures ∧
      (b.FromJUnitRepresentation l2).Errors = (b.FromJUnitRepresentation l).Errors ∧
      (b.FromJUnitRepresentation l2).Skipped = (b.FromJUnitRepresentation l).Skipped ∧
      (b.FromJUnitRepresentation l2).Flakes = (b.FromJUnitRepresentation l).Flakes) ∧
    (b.FromJUnitRepresentation l2).TestSuites.length
      = (b.FromJUnitRepresentation l).TestSuites.length ∧
    ∀ (i j : Nat) (rs : surefireTestsuite), l2[i]? = some rs → l[j]? = some rs →
      ∃ s : testSuite, (b.FromJUnitRepresentation l).TestSuites[j]? = some s ∧
        (b.FromJUnitRepresentation l2).TestSuites[i]? = some (relocate i s) := by
  obtain ⟨a1, a2, a3, a4, a5⟩ := FromJUnitRepresentation_totals b l
  obtain ⟨b1, b2, b3, b4, b5⟩ := FromJUnitRepresentation_totals b l2
  refine ⟨⟨?_, ?_, ?_, ?_, ?_, ?_⟩, ?_, ?_⟩
  · rw [a1, b1]; exact ((hperm.map _).sum_eq).symm
  · rw [a2, b2]; exact ((hperm.map _).sum_eq).symm
  · rw [a3, b3]; exact ((hperm.map _).sum_eq).symm
  · rw [a4, b4]; exact ((hperm.map _).sum_eq).symm
  · rw [a5, b5]; exact ((hperm.map _).sum_eq).symm
  · rw [FromJUnitRepresentation_flakes, FromJUnitRepresentation_flakes]
    exact ((hperm.map _).sum_eq).symm
  · rw [TestSuites_length, TestSuites_length, hperm.length_eq]
  · intro i j rs hi hj
    refine ⟨buildSuite b j rs, ?_, ?_⟩
    · rw [TestSuites_getElem?, hj]; rfl
    · rw [TestSuites_getElem?, hi, Option.map_some', buildSuite_relocate b j i rs hblind]

theorem totals_order_independent_witness :
    nonIntersectedSuites.Perm nonIntersectedSuites.reverse ∧
    (∀ f, xyReader.labeler = some f → AddressBlind f) ∧
    (xyReader.FromJUnitRepresentation nonIntersectedSuites.reverse).Tests
      = (xyReader.FromJUnitRepresentation nonIntersectedSuites).Tests ∧
    ∃ s : testSuite,
      (xyReader.FromJUnitRepresentation nonIntersectedSuites).TestSuites[2]? = some s ∧
      (xyReader.FromJUnitRepresentation nonIntersectedSuites.reverse).TestSuites[0]?
        = some (relocate 0 s) := by
  have hb : ∀ f, xyReader.labeler = some f → AddressBlind f := by
    intro f hf
    have e : f = xyLabeler := by
      have h : some xyLabeler = some f := hf
      exact (Option.some.inj h).symm
    subst e
    intro s a
    rfl
  have h := totals_order_independent xyReader nonIntersectedSuites nonIntersectedSuites.reverse
    (List.reverse_perm _).symm hb
  exact ⟨(List.reverse_perm _).symm, hb, h.1.1, h.2.2 0 2 _ rfl rfl⟩


/-! ## The concurrent loader -/

/-- C12, as stated, fails for pre-decoded raw suites: FromJUnitRepresentation
converts a raw suite with an empty name like any other, so TestSuites()
has a suite with an empty name. -/
theorem empty_name_excluded_counterexample :
    ¬ ∀ s ∈ (plainReader.FromJUnitRepresentation
        [sampleSuite "" [plainCase "Test-2"]]).TestSuites, s.Name ≠ "" := by
  decide

/-- C12, amended: for every Results returned by FromReportFiles, under every
schedule of the loader, no suite in TestSuites() has an empty name: the
Results are converted from the decoded suites of the locations without the
suites whose name is empty, which the loader drops. -/
theorem FromReportFiles_has_no_empty_name (b : JUnitReportsReader) (fs : FileSystem)
    (files : List String) (schedule : List Action) (ret : Option testResults × Option GoError)
    (r : testResults) (h : b.FromReportFiles fs schedule files = some ret)
    (hr : ret.1 = some r) :
    (∀ s ∈ r.TestSuites, s.Name ≠ "") ∧
    ∃ suites, suites.Perm (files.flatMap (expectedSuites fs)) ∧
      r = b.FromJUnitRepresentation suites := by
  unfold JUnitReportsReader.FromReportFiles at h
  cases hp : parseSurefireReports fs schedule files with
  | none => simp [hp] at h
  | some p =>
    obtain ⟨hfail, hok⟩ := parseSurefireReports_returns hp
    by_cases hf : ∃ file ∈ files, stepFailed fs file
    · obtain ⟨errors, -, -, rfl⟩ := hfail hf
      simp only [hp, Option.map_some', Option.some.injEq] at h
      subst h
      simp at hr
    · obtain ⟨suites, hperm, rfl⟩ := hok hf
      simp only [hp, Option.map_some', Option.some.injEq, Option.getD_some] at h
      subst h
      simp only [Option.some.injEq] at hr
      subst hr
      refine ⟨?_, suites, hperm, rfl⟩
      intro s hs
      obtain ⟨a, rs, hrs, rfl⟩ := mem_TestSuites b suites s hs
      rw [testSuite.Name, (buildSuite_meta b a rs).1]
      exact expectedSuites_name (hperm.mem_iff.mp hrs)

theorem FromReportFiles_has_no_empty_name_witness :
    ∃ r, plainReader.FromReportFiles sampleFs scheduleTwoReadable ["a.xml", "empty.xml"]
        = some (some r, none) ∧
      r.TestSuites.map (fun s => s.Name) = ["A"] ∧
      ∀ s ∈ r.TestSuites, s.Name ≠ "" :=
  ⟨plainReader.FromJUnitRepresentation
      [{ sampleSuite "A" [plainCase "Test-1"] with Filename := "a.xml" }],
    by decide, by decide,
    (FromReportFiles_has_no_empty_name plainReader sampleFs ["a.xml", "empty.xml"]
      scheduleTwoReadable
      (some (plainReader.FromJUnitRepresentation
        [{ sampleSuite "A" [plainCase "Test-1"] with Filename := "a.xml" }]), none)
      _ (by decide) rfl).1⟩

/-- C13: FromReportFiles can return for every list of locations, and under
every schedule of the loader it fails if and only if an open, decode or
close step of at least one location failed: then it returns no Results
and the combined error of all observed failures, whatever the other
locations decoded to; when no step failed, it returns the Results of the
decoded suites and no error. -/
theorem FromReportFiles_fails_iff_a_step_failed (b : JUnitReportsReader) (fs : FileSystem)
    (files : List String) :
    (∃ schedule ret, b.FromReportFiles fs schedule files = some ret) ∧
    ∀ (schedule : List Action) (ret : Option testResults × Option GoError),
      b.FromReportFiles fs schedule files = some ret →
        (ret.2 ≠ none ↔ ∃ file ∈ files, stepFailed fs file) ∧
        ((∃ file ∈ files, stepFailed fs file) →
          ret.1 = none ∧
          ∃ errors, errors.Perm (files.flatMap (observedErrors fs)) ∧
            ret.2 = some (combinedError errors)) ∧
        ((¬ ∃ file ∈ files, stepFailed fs file) →
          ret.2 = none ∧
          ∃ suites, suites.Perm (files.flatMap (expectedSuites fs)) ∧
            ret.1 = some (b.FromJUnitRepresentation suites)) := by
  constructor
  · obtain ⟨schedule, r, hr⟩ := parseSurefireReports_can_return fs files
    refine ⟨schedule, ?_⟩
    unfold JUnitReportsReader.FromReportFiles
    rw [hr]
    exact ⟨_, rfl⟩
  · intro schedule ret h
    unfold JUnitReportsReader.FromReportFiles at h
    cases hp : parseSurefireReports fs schedule files with
    | none => simp [hp] at h
    | some p =>
      obtain ⟨hfail, hok⟩ := parseSurefireReports_returns hp
      by_cases hf : ∃ file ∈ files, stepFailed fs file
      · obtain ⟨errors, hperm, -, rfl⟩ := hfail hf
        simp only [hp, Option.map_some', Option.some.injEq] at h
        subst h
        exact ⟨⟨fun _ => hf, fun _ => by simp⟩, fun _ => ⟨rfl, errors, hperm, rfl⟩,
          fun hn => absurd hf hn⟩
      · obtain ⟨suites, hperm, rfl⟩ := hok hf
        simp only [hp, Option.map_some', Option.some.injEq, Option.getD_some] at h
        subst h
        exact ⟨⟨fun hne => absurd rfl hne, fun hy => absurd hy hf⟩, fun hy => absurd hy hf,
          fun _ => ⟨rfl, suites, hperm, rfl⟩⟩

theorem FromReportFiles_fails_iff_a_step_failed_witness :
    (∃ file ∈ ["a.xml", "missing.xml", "b.xml"], stepFailed sampleFs file) ∧
    ∃ ret, plainReader.FromReportFiles sampleFs scheduleOneMissing
        ["a.xml", "missing.xml", "b.xml"] = some ret ∧
      ret.1 = none ∧ ret.2 ≠ none ∧
      ret.2 = some (combinedError
        ["open: no such file", "error decoding XML: invalid argument", "invalid argument"]) := by
  have h : plainReader.FromReportFiles sampleFs scheduleOneMissing
      ["a.xml", "missing.xml", "b.xml"]
      = some (none, some (combinedError
          ["open: no such file", "error decoding XML: invalid argument",
            "invalid argument"])) := by decide
  have hf : ∃ file ∈ ["a.xml", "missing.xml", "b.xml"], stepFailed sampleFs file :=
    ⟨"missing.xml", by decide, by decide⟩
  have hthm := (FromReportFiles_fails_iff_a_step_failed plainReader sampleFs
    ["a.xml", "missing.xml", "b.xml"]).2 scheduleOneMissing _ h
  exact ⟨hf, _, h, (hthm.2.1 hf).1, hthm.1.mpr hf, rfl⟩

/-- C15, as stated, fails: a location that opens and decodes to a suite with a
name, and whose file then fails to close, is a successfully decoded,
non-empty-named suite, but its worker takes the error branch and merges
nothing: under a schedule that lets the call return, the merged collection
is empty and so is no arrangement of the decoded suites. -/
theorem loader_merges_decoded_suites_counterexample :
    ¬ ∀ (schedule : List Action) (s : Loader),
      run closeFailsFs (initLoader ["c.xml"]) schedule = some s → s.returned ≠ none →
        s.testsuites.Perm (["c.xml"].flatMap (decodedSuites closeFailsFs)) := by
  intro hall
  have hsome : (run closeFailsFs (initLoader ["c.xml"]) scheduleCloseFails).isSome = true := by
    decide
  obtain ⟨s, hs⟩ := Option.isSome_iff_exists.mp hsome
  have hret : s.returned ≠ none := by
    have h2 : ((run closeFailsFs (initLoader ["c.xml"]) scheduleCloseFails).bind
        fun s => s.returned).isSome = true := by decide
    rw [hs] at h2
    intro hn
    simp [hn] at h2
  have hempty : s.testsuites = [] := by
    have h3 : (run closeFailsFs (initLoader ["c.xml"]) scheduleCloseFails).map
        (fun s => s.testsuites) = some [] := by decide
    rw [hs] at h3
    exact Option.some.inj h3
  have hperm := hall scheduleCloseFails s hs hret
  have hdec : ["c.xml"].flatMap (decodedSuites closeFailsFs)
      = [{ sampleSuite "C" [plainCase "Test-6"] with Filename := "c.xml" }] := by decide
  rw [hempty, hdec] at hperm
  have hlen := hperm.length_eq
  simp at hlen

/-- C15, amended: under every interleaving of the workers, once the call has
returned the merged collection holds the decoded suite of every location
whose open, decode and close steps all succeeded and whose suite has a
name, once per location and nothing else, and the collected errors hold
every observed failure of every location; every worker has then passed
wg.Done().  Some interleaving under which the call returns exists. -/
theorem loader_merges_every_result_once (fs : FileSystem) (files : List String) :
    (∃ schedule s r, run fs (initLoader files) schedule = some s ∧ s.returned = some r) ∧
    ∀ (schedule : List Action) (s : Loader),
      run fs (initLoader files) schedule = some s → s.returned ≠ none →
        s.testsuites.Perm (files.flatMap (expectedSuites fs)) ∧
        s.errors.Perm (files.flatMap (observedErrors fs)) ∧
        (∀ w ∈ s.workers,
          w.pc = Pc.errUnlock ∨ w.pc = Pc.repUnlock ∨ w.pc = Pc.finished) := by
  constructor
  · exact exists_returning_schedule (stepsLeft fs (initLoader files))
      (initLoader files) (initLoader_inv fs files) (Nat.le_refl _)
  · intro schedule s hrun hret
    cases hr : s.returned with
    | none => exact absurd hr hret
    | some r =>
      obtain ⟨h1, h2, h3, -⟩ := run_initLoader_at_return hrun hr
      refine ⟨h1, h2, fun w hw => ?_⟩
      have h0 := h3 w hw
      rcases w with ⟨file, pc⟩
      cases pc <;> simp [beforeDone] at h0 ⊢

theorem loader_merges_every_result_once_witness :
    ∃ s, run sampleFs (initLoader ["a.xml", "missing.xml", "b.xml"]) scheduleOneMissing = some s ∧
      s.returned ≠ none ∧
      s.testsuites.Perm
        [{ sampleSuite "A" [plainCase "Test-1"] with Filename := "a.xml" },
          { sampleSuite "B" [skippedFailingCase] with Filename := "b.xml" }] ∧
      s.errors.Perm
        ["open: no such file", "error decoding XML: invalid argument", "invalid argument"] := by
  have hsome : (run sampleFs (initLoader ["a.xml", "missing.xml", "b.xml"])
      scheduleOneMissing).isSome = true := by decide
  obtain ⟨s, hs⟩ := Option.isSome_iff_exists.mp hsome
  have hret : s.returned ≠ none := by
    have h2 : ((run sampleFs (initLoader ["a.xml", "missing.xml", "b.xml"])
        scheduleOneMissing).bind fun s => s.returned).isSome = true := by decide
    rw [hs] at h2
    intro hn
    simp [hn] at h2
  obtain ⟨h1, h2, -⟩ := (loader_merges_every_result_once sampleFs
    ["a.xml", "missing.xml", "b.xml"]).2 scheduleOneMissing s hs hret
  have e1 : ["a.xml", "missing.xml", "b.xml"].flatMap (expectedSuites sampleFs)
      = [{ sampleSuite "A" [plainCase "Test-1"] with Filename := "a.xml" },
          { sampleSuite "B" [skippedFailingCase] with Filename := "b.xml" }] := by decide
  have e2 : ["a.xml", "missing.xml", "b.xml"].flatMap (observedErrors sampleFs)
      = ["open: no such file", "error decoding XML: invalid argument",
          "invalid argument"] := by decide
  exact ⟨s, hs, hret, e1 ▸ h1, e2 ▸ h2⟩


/-! ## Derived invariants of the results -/

/-- C21: for every raw test case the Fullname of the produced test case is
its Classname followed by a dot followed by its Name, and Name and
Classname are those of the raw case. -/
theorem fullname_is_classname_dot_name (b : JUnitReportsReader) (l : List surefireTestsuite)
    (i j : Nat) (c : surefireTestcase) (hraw : rawCase? l i j = some c) :
    ∃ tc, producedCase? b l i j = some tc ∧
      tc.Name = c.Name ∧ tc.Classname = c.Classname ∧
      tc.Fullname = tc.Classname ++ "." ++ tc.Name := by
  obtain ⟨rs, -, hp⟩ := producedCase?_of_raw b l i j c hraw
  obtain ⟨h1, h2, h3, -⟩ := caseBody_snd_copied i rs (buildSuite b i rs) c
  exact ⟨_, hp (buildSuite b i rs), h1, h2, by rw [h3, h1, h2]⟩

theorem fullname_is_classname_dot_name_witness :
    rawCase? [sampleSuite "S" [rerunCase]] 0 0 = some rerunCase ∧
    ∃ tc, producedCase? plainReader [sampleSuite "S" [rerunCase]] 0 0 = some tc ∧
      tc.Name = "Test-5" ∧ tc.Classname = "pkg.Class" ∧ tc.Fullname = "pkg.Class.Test-5" := by
  obtain ⟨tc, h, h1, h2, h3⟩ := fullname_is_classname_dot_name plainReader
    [sampleSuite "S" [rerunCase]] 0 0 rerunCase rfl
  refine ⟨rfl, tc, h, h1, h2, ?_⟩
  rw [h3, h1, h2]
  decide

/-- C22: in every suite produced by FromJUnitRepresentation the stored
counters agree with the queries: Success() is the length of
SuccessfulTestCases(), Skipped() the length of SkippedTestCases(), and
Failure() + Error() the length of NonSuccessfulTestCases(); no case has both
an Issue and a Skipped marker, and every case is returned by exactly one of
the three queries. -/
theorem counters_agree_with_queries (b : JUnitReportsReader) (l : List surefireTestsuite)
    (s : testSuite) (hs : s ∈ (b.FromJUnitRepresentation l).TestSuites) :
    s.Success = s.SuccessfulTestCases.2.length ∧
    s.Skipped = s.SkippedTestCases.2.length ∧
    s.Failure + s.Error = s.NonSuccessfulTestCases.2.length ∧
    ∀ tc ∈ s.TestCases,
      ¬ (tc.Issue ≠ none ∧ tc.Skipped ≠ none) ∧
      (tc ∈ s.SuccessfulTestCases.2 ∨ tc ∈ s.SkippedTestCases.2
        ∨ tc ∈ s.NonSuccessfulTestCases.2) ∧
      ¬ (tc ∈ s.SuccessfulTestCases.2 ∧ tc ∈ s.SkippedTestCases.2) ∧
      ¬ (tc ∈ s.SuccessfulTestCases.2 ∧ tc ∈ s.NonSuccessfulTestCases.2) ∧
      ¬ (tc ∈ s.SkippedTestCases.2 ∧ tc ∈ s.NonSuccessfulTestCases.2) := by
  obtain ⟨a, rs, -, rfl⟩ := mem_TestSuites b l s hs
  obtain ⟨h1, h2, h3, h4⟩ := buildSuite_counters b a rs
  obtain ⟨q1, q2, q3⟩ := buildSuite_query_lengths b a rs
  refine ⟨?_, ?_, ?_, ?_⟩
  · rw [testSuite.Success, h1, q1]
  · rw [testSuite.Skipped, h4, q2]
  · rw [testSuite.Failure, testSuite.Error, h2, h3, q3]
    apply countP_add_of_disjoint
    intro c
    rcases precedenceOutcome_cases c with h | h | h | h <;>
      simp [h, Success, Failure, Error, Skip]
  · intro tc htc
    have hex := buildSuite_payload_exclusive b a rs tc htc
    simp only [testSuite.SuccessfulTestCases, testSuite.SkippedTestCases,
      testSuite.NonSuccessfulTestCases, testSuite.filterTestCases, filterLoop_eq,
      List.nil_append, List.mem_filter]
    have htc2 : tc ∈ (buildSuite b a rs).testcases := htc
    cases hi : tc.Issue <;> cases hk : tc.Skipped <;> simp_all

theorem counters_agree_with_queries_witness :
    buildSuite plainReader 0 (sampleSuite "S" [flakyFailingCase, skippedFailingCase,
        flakyPassingCase])
      ∈ (plainReader.FromJUnitRepresentation
          [sampleSuite "S" [flakyFailingCase, skippedFailingCase,
            flakyPassingCase]]).TestSuites ∧
    (buildSuite plainReader 0 (sampleSuite "S" [flakyFailingCase, skippedFailingCase,
        flakyPassingCase])).Success = 1 ∧
    (buildSuite plainReader 0 (sampleSuite "S" [flakyFailingCase, skippedFailingCase,
        flakyPassingCase])).SuccessfulTestCases.2.length = 1 := by
  have h := counters_agree_with_queries plainReader
    [sampleSuite "S" [flakyFailingCase, skippedFailingCase, flakyPassingCase]] _
    (by decide : buildSuite plainReader 0 (sampleSuite "S" [flakyFailingCase,
        skippedFailingCase, flakyPassingCase])
      ∈ (plainReader.FromJUnitRepresentation
          [sampleSuite "S" [flakyFailingCase, skippedFailingCase,
            flakyPassingCase]]).TestSuites)
  exact ⟨by decide, by decide, h.1 ▸ (by decide)⟩

/-- C23: in every suite produced by FromJUnitRepresentation FlakyTestCases()
returns exactly the cases whose Status is Flaky, in their order, and
Flakes() of the results is the number of cases with Status Flaky over all
suites. -/
theorem flaky_query_is_flaky_status (b : JUnitReportsReader) (l : List surefireTestsuite) :
    (∀ s ∈ (b.FromJUnitRepresentation l).TestSuites,
      s.FlakyTestCases.2 = s.TestCases.filter (fun tc => tc.Status == Flaky)) ∧
    (b.FromJUnitRepresentation l).Flakes
      = ((b.FromJUnitRepresentation l).TestSuites.map fun s =>
          s.TestCases.countP (fun tc => tc.Status == Flaky)).sum := by
  have hq : ∀ s ∈ (b.FromJUnitRepresentation l).TestSuites,
      s.FlakyTestCases.2 = s.TestCases.filter (fun tc => tc.Status == Flaky) := by
    intro s hs
    obtain ⟨a, rs, -, rfl⟩ := mem_TestSuites b l s hs
    exact buildSuite_flaky_query b a rs
  refine ⟨hq, ?_⟩
  have h := foldl_suiteStep_TotalsAreSums b l
    { tests := 0, successes := 0, failures := 0, errors := 0, skipped := 0, flakes := 0,
      suites := [] }
    (by simp [TotalsAreSums, testResults.Tests, testResults.Successes, testResults.Failures,
      testResults.Errors, testResults.Skipped, testResults.Flakes, testResults.TestSuites])
  have h6 : (b.FromJUnitRepresentation l).Flakes
      = ((b.FromJUnitRepresentation l).TestSuites.map fun s =>
          s.FlakyTestCases.2.length).sum := h.2.2.2.2.2
  rw [h6]
  congr 1
  apply List.map_congr_left
  intro s hs
  rw [hq s hs, List.countP_eq_length_filter]

theorem flaky_query_is_flaky_status_witness :
    buildSuite plainReader 0 (sampleSuite "S" [flakyFailingCase, skippedFailingCase,
        flakyPassingCase])
      ∈ (plainReader.FromJUnitRepresentation
          [sampleSuite "S" [flakyFailingCase, skippedFailingCase,
            flakyPassingCase]]).TestSuites ∧
    (buildSuite plainReader 0 (sampleSuite "S" [flakyFailingCase, skippedFailingCase,
        flakyPassingCase])).FlakyTestCases.2
      = (buildSuite plainReader 0 (sampleSuite "S" [flakyFailingCase, skippedFailingCase,
          flakyPassingCase])).TestCases.filter (fun tc => tc.Status == Flaky) ∧
    (plainReader.FromJUnitRepresentation
        [sampleSuite "S" [flakyFailingCase, skippedFailingCase, flakyPassingCase]]).Flakes
      = 2 :=
  ⟨by decide,
    (flaky_query_is_flaky_status plainReader
      [sampleSuite "S" [flakyFailingCase, skippedFailingCase, flakyPassingCase]]).1 _
      (by decide),
    by decide⟩

/-- C24: for every Results produced by FromJUnitRepresentation, Tests() is
Successes() + Failures() + Errors() + Skipped(), and Flakes() is at most
Tests(). -/
theorem tests_is_sum_of_buckets (b : JUnitReportsReader) (l : List surefireTestsuite) :
    (b.FromJUnitRepresentation l).Tests
      = (b.FromJUnitRepresentation l).Successes + (b.FromJUnitRepresentation l).Failures
        + (b.FromJUnitRepresentation l).Errors + (b.FromJUnitRepresentation l).Skipped ∧
    (b.FromJUnitRepresentation l).Flakes ≤ (b.FromJUnitRepresentation l).Tests := by
  obtain ⟨a1, a2, a3, a4, a5⟩ := FromJUnitRepresentation_totals b l
  obtain ⟨p1, p2⟩ := raw_totals_partition l
  rw [FromJUnitRepresentation_flakes, a1, a2, a3, a4, a5]
  exact ⟨p1, p2⟩

/-- C25: the labeler influences nothing but the labels: for every list of raw
suites, the Results of any two readers, which can differ in their labeler
only, have equal totals and the same number of suites, and suite by suite
equal names, file names, times, counters and test cases; the two suites are
equal up to their labels. -/
theorem labeler_changes_labels_only (b b2 : JUnitReportsReader)
    (l : List surefireTestsuite) :
    ((b.FromJUnitRepresentation l).Tests = (b2.FromJUnitRepresentation l).Tests ∧
      (b.FromJUnitRepresentation l).Successes = (b2.FromJUnitRepresentation l).Successes ∧
      (b.FromJUnitRepresentation l).Failures = (b2.FromJUnitRepresentation l).Failures ∧
      (b.FromJUnitRepresentation l).Errors = (b2.FromJUnitRepresentation l).Errors ∧
      (b.FromJUnitRepresentation l).Skipped = (b2.FromJUnitRepresentation l).Skipped ∧
      (b.FromJUnitRepresentation l).Flakes = (b2.FromJUnitRepresentation l).Flakes) ∧
    (b.FromJUnitRepresentation l).TestSuites.length
      = (b2.FromJUnitRepresentation l).TestSuites.length ∧
    ∀ (i : Nat) (s s2 : testSuite),
      (b.FromJUnitRepresentation l).TestSuites[i]? = some s →
      (b2.FromJUnitRepresentation l).TestSuites[i]? = some s2 →
        s.Name = s2.Name ∧ s.Filename = s2.Filename ∧ s.Time = s2.Time ∧
        s.Success = s2.Success ∧ s.Failure = s2.Failure ∧ s.Error = s2.Error ∧
        s.Skipped = s2.Skipped ∧ s.TestCases = s2.TestCases ∧
        { s with labels := s2.Labels } = s2 := by
  obtain ⟨a1, a2, a3, a4, a5⟩ := FromJUnitRepresentation_totals b l
  obtain ⟨c1, c2, c3, c4, c5⟩ := FromJUnitRepresentation_totals b2 l
  refine ⟨⟨by rw [a1, c1], by rw [a2, c2], by rw [a3, c3], by rw [a4, c4], by rw [a5, c5],
    by rw [FromJUnitRepresentation_flakes, FromJUnitRepresentation_flakes]⟩,
    by rw [TestSuites_length, TestSuites_length], ?_⟩
  intro i s s2 hs hs2
  rw [TestSuites_getElem?] at hs hs2
  cases hl : l[i]? with
  | none => simp [hl] at hs
  | some rs =>
    simp only [hl, Option.map_some', Option.some.injEq] at hs hs2
    subst hs
    subst hs2
    have h := buildSuite_without_labels b b2 i rs
    have hn : (buildSuite b i rs).name = (buildSuite b2 i rs).name := congrArg (·.name) h
    have hf : (buildSuite b i rs).filename = (buildSuite b2 i rs).filename :=
      congrArg (·.filename) h
    have ht : (buildSuite b i rs).time = (buildSuite b2 i rs).time := congrArg (·.time) h
    have h1 : (buildSuite b i rs).successes = (buildSuite b2 i rs).successes :=
      congrArg (·.successes) h
    have h2 : (buildSuite b i rs).failures = (buildSuite b2 i rs).failures :=
      congrArg (·.failures) h
    have h3 : (buildSuite b i rs).errors = (buildSuite b2 i rs).errors :=
      congrArg (·.errors) h
    have h4 : (buildSuite b i rs).skipped = (buildSuite b2 i rs).skipped :=
      congrArg (·.skipped) h
    have h5 : (buildSuite b i rs).testcases = (buildSuite b2 i rs).testcases :=
      congrArg (·.testcases) h
    refine ⟨hn, hf, ht, h1, h2, h3, h4, h5, ?_⟩
    have e := congrArg (fun t : testSuite => { t with labels := (buildSuite b2 i rs).labels }) h
    exact e

theorem labeler_changes_labels_only_witness :
    (xyReader.FromJUnitRepresentation nonIntersectedSuites).TestSuites[0]?
      = some (buildSuite xyReader 0 failureSuite) ∧
    (plainReader.FromJUnitRepresentation nonIntersectedSuites).TestSuites[0]?
      = some (buildSuite plainReader 0 failureSuite) ∧
    (buildSuite xyReader 0 failureSuite).TestCases
      = (buildSuite plainReader 0 failureSuite).TestCases ∧
    (buildSuite xyReader 0 failureSuite).Failure
      = (buildSuite plainReader 0 failureSuite).Failure ∧
    (buildSuite xyReader 0 failureSuite).Labels = ["x", "y"] ∧
    (buildSuite plainReader 0 failureSuite).Labels = [] := by
  have h := (labeler_changes_labels_only xyReader plainReader nonIntersectedSuites).2.2 0
    (buildSuite xyReader 0 failureSuite) (buildSuite plainReader 0 failureSuite)
    (by decide) (by decide)
  exact ⟨by decide, by decide, h.2.2.2.2.2.2.2.1, h.2.2.2.2.1, by decide, by decide⟩

end Surefire
